import Mathlib

/-!
# Echo State Network (NSLI) : shallow embedding of `source/network_nsli.cpp`

The network works on `float` scalars through Eigen.  The embedding is generic in
the scalar type `F`: every scalar operation the source applies is a field of
`Arith F`, and the dense linear algebra routines it calls (inverse, SVD,
eigenvalues) are fields of `LinAlg F`.  Nothing is assumed about these
operations unless a theorem says so, hence a theorem stated for every `Arith F`
holds for IEEE arithmetic as well as for exact arithmetic.

Vectors are lists, matrices are lists of rows.  A C++ method that may throw is
a function returning the error (if any) together with the network as the throw
leaves it.

Four families of arithmetic are given as models: exact arithmetic over an ordered
field (`fieldArith`), exact arithmetic with a NaN (`nanArith`), arithmetic whose
operations round their exact result (`roundArith`), and rounded arithmetic with a
NaN (`floatArith`); `roundNearestEven 24` is the rounding of `float`.
-/

namespace ESN

/-- Failure kinds: `std::invalid_argument`, `std::logic_error`, `OutputIsNotFinite`. -/
inductive Error where
  | invalidArgument
  | logicError
  | outputIsNotFinite
  deriving DecidableEq, Repr

/-- Scalar operations of the source, one field per operation or literal it uses. -/
structure Arith (F : Type) where
  /-- literal `0.0f` -/
  zero : F
  /-- literal `1.0f` -/
  one : F
  /-- literal `2.0f` -/
  two : F
  /-- literal `0.1f` -/
  tenth : F
  add : F → F → F
  sub : F → F → F
  mul : F → F → F
  div : F → F → F
  abs : F → F
  /-- function `std::tanh` -/
  tanh : F → F
  /-- function `std::atanh` -/
  atanh : F → F
  /-- comparison `a <= b` -/
  le : F → F → Bool
  /-- comparison `a < b` (and `b > a`) -/
  lt : F → F → Bool
  /-- function `std::isfinite` -/
  isfinite : F → Bool

/-- Comparison laws shared by IEEE and exact arithmetic: `0 <= 0`, `a < b`
excludes `b <= a`, and `0 < 0.1f`. -/
structure Arith.Ordered {F : Type} (A : Arith F) : Prop where
  le_zero_zero : A.le A.zero A.zero = true
  not_le_of_lt : ∀ a b : F, A.lt a b = true → A.le b a = false
  tenth_pos : A.lt A.zero A.tenth = true

abbrev Vec (F : Type) := List F

/-- Dense matrix, stored as the list of its rows. -/
abbrev Mat (F : Type) := List (List F)

/-- Dense routines of the linear algebra library used by the source. -/
structure LinAlg (F : Type) where
  /-- method `.inverse()` -/
  inverse : Mat F → Mat F
  /-- method `jacobiSvd(ComputeFullU | ComputeFullV).matrixU()` -/
  matrixU : Mat F → Mat F
  /-- method `jacobiSvd(ComputeFullU | ComputeFullV).matrixV()` -/
  matrixV : Mat F → Mat F
  /-- expression `.eigenvalues().cwiseAbs().maxCoeff()` -/
  eigenvaluesAbsMax : Mat F → F

section LinearAlgebra

variable {F : Type}

/-- Element-wise sum `a + b`. -/
def vadd (A : Arith F) (a b : Vec F) : Vec F := List.zipWith A.add a b

/-- Element-wise product `a.cwiseProduct(b)`. -/
def cwiseProduct (A : Arith F) (a b : Vec F) : Vec F := List.zipWith A.mul a b

/-- Element-wise map `v.unaryExpr(f)`. -/
def unaryExpr (f : F → F) (v : Vec F) : Vec F := v.map f

/-- Inner product of a matrix row with a vector. -/
def dot (A : Arith F) (r v : Vec F) : F := (List.zipWith A.mul r v).foldl A.add A.zero

/-- Matrix-vector product `M * v`. -/
def matVec (A : Arith F) (M : Mat F) (v : Vec F) : Vec F := M.map (fun r => dot A r v)

/-- Column `j` of a matrix. -/
def column (A : Arith F) (M : Mat F) (j : Nat) : Vec F := M.map (fun r => r.getD j A.zero)

/-- Transpose of a matrix with `cols` columns. -/
def transpose (A : Arith F) (cols : Nat) (M : Mat F) : Mat F :=
  (List.range cols).map (column A M)

/-- Matrix product `M * N`, where `N` has `cols` columns. -/
def matMul (A : Arith F) (cols : Nat) (M N : Mat F) : Mat F :=
  M.map (fun r => (List.range cols).map (fun j => dot A r (column A N j)))

/-- Matrix with `rows` rows whose columns are the given vectors (`mat.col(i) = v`). -/
def ofColumns (A : Arith F) (rows : Nat) (cs : List (Vec F)) : Mat F :=
  (List.range rows).map (fun i => cs.map (fun c => c.getD i A.zero))

/-- Matrix `rows x cols` filled from a generator (`Random`, `Zero`, `Constant`). -/
def matOfFn (rows cols : Nat) (f : Nat → Nat → F) : Mat F :=
  (List.range rows).map (fun i => (List.range cols).map (fun j => f i j))

/-- Vector of size `n` filled from a generator. -/
def vecOfFn (n : Nat) (f : Nat → F) : Vec F := (List.range n).map f

end LinearAlgebra

/-- Parameters `NetworkParamsNSLI`; the counts are `unsigned`. -/
structure NetworkParamsNSLI (F : Type) where
  inputCount : Nat
  neuronCount : Nat
  outputCount : Nat
  leakingRateMin : F
  leakingRateMax : F
  connectivity : F
  spectralRadius : F
  useOrthonormalMatrix : Bool
  hasOutputFeedback : Bool
  linearOutput : Bool
  onlineTrainingForgettingFactor : F
  onlineTrainingInitialCovariance : F

/-- Modelled from the spec: the state of `AdaptiveFilterRLS`, whose source is not part of
the repository files at hand: a covariance matrix (size x size), initialised to
`initialCovariance x Identity`, and a forgetting factor. -/
structure AdaptiveFilterRLS (F : Type) where
  mForgettingFactor : F
  mP : Mat F

/-- Modelled from the spec: constructor `AdaptiveFilterRLS(size, forgettingFactor,
initialCovariance)`, covariance `initialCovariance x Identity`. -/
def AdaptiveFilterRLS.create {F : Type} (A : Arith F) (size : Nat) (forgettingFactor : F)
    (initialCovariance : F) : AdaptiveFilterRLS F :=
  { mForgettingFactor := forgettingFactor
    mP := matOfFn size size
      (fun i j => A.mul initialCovariance (if i = j then A.one else A.zero)) }

/-- Result of `AdaptiveFilterRLS::Train`: exception, filter after the call, weight vector
after the call. -/
structure FilterOutcome (F : Type) where
  err : Option Error
  filter : AdaptiveFilterRLS F
  w : Vec F

/-- Modelled from the spec: method `AdaptiveFilterRLS::Train(weights, predicted, target,
regressor)`, whose source is not part of the repository files at hand.  A regressor or
weight vector whose size differs from the stored covariance size fails with
InvalidArgument; otherwise
`gain = covariance·regressor / (λ + regressorᵀ·covariance·regressor)`,
`error = target - predicted`, `weights += gain · error`,
`covariance = (covariance - gain·regressorᵀ·covariance) / λ`. -/
def AdaptiveFilterRLS.Train {F : Type} (A : Arith F) (f : AdaptiveFilterRLS F) (w : Vec F)
    (predicted target : F) (regressor : Vec F) : FilterOutcome F :=
  if regressor.length ≠ f.mP.length ∨ w.length ≠ f.mP.length then
    ⟨some .invalidArgument, f, w⟩
  else
    let Px := matVec A f.mP regressor
    let gain := Px.map (fun g => A.div g (A.add f.mForgettingFactor (dot A regressor Px)))
    let error := A.sub target predicted
    let xP := (List.range f.mP.length).map (fun j => dot A regressor (column A f.mP j))
    let covariance := List.zipWith (fun row g =>
      List.zipWith (fun p q => A.div (A.sub p (A.mul g q)) f.mForgettingFactor) row xP)
      f.mP gain
    ⟨none, { f with mP := covariance },
      List.zipWith (fun wi g => A.add wi (A.mul g error)) w gain⟩

/-- Data members of class `NetworkNSLI`. -/
structure NetworkNSLI (F : Type) where
  mParams : NetworkParamsNSLI F
  mIn : Vec F
  mWIn : Mat F
  mWInScaling : Vec F
  mWInBias : Vec F
  mX : Vec F
  mW : Mat F
  mLeakingRate : Vec F
  mOneMinusLeakingRate : Vec F
  mOut : Vec F
  mOutScale : Vec F
  mOutBias : Vec F
  mWOut : Mat F
  mWFB : Mat F
  mWFBScaling : Vec F
  mAdaptiveFilter : List (AdaptiveFilterRLS F)

/-- The values drawn by the calls of `Random` in the constructor, in `[-1, 1]`,
indexed by position. -/
structure RandomDraws (F : Type) where
  wIn : Nat → Nat → F
  mask : Nat → Nat → F
  weights : Nat → Nat → F
  wFB : Nat → Nat → F
  leakingRate : Nat → F
  x : Nat → F

/-- Result of a `void` method: the exception thrown, if any, and the network after it. -/
structure Outcome (F : Type) where
  err : Option Error
  net : NetworkNSLI F

/-- Result of a `Capture...` method: exception, network, and the caller's buffer. -/
structure Captured (F : Type) where
  err : Option Error
  net : NetworkNSLI F
  buffer : Vec F

section Network

variable {F : Type}

/-- The parameter checks at the head of `NetworkNSLI::NetworkNSLI`, in source order;
`true` when one of them throws `std::invalid_argument`. -/
def paramsRejected (A : Arith F) (params : NetworkParamsNSLI F) : Bool :=
  if params.inputCount ≤ 0 then true
  else if params.neuronCount ≤ 0 then true
  else if params.outputCount ≤ 0 then true
  else if !(A.lt A.zero params.leakingRateMin && A.le params.leakingRateMin A.one) then true
  else if !(A.lt A.zero params.leakingRateMax && A.le params.leakingRateMax A.one) then true
  else if A.lt params.leakingRateMax params.leakingRateMin then true
  else if !(A.lt A.zero params.connectivity && A.le params.connectivity A.one) then true
  else false

/-- The raw reservoir weights: a mask `|r1| <= connectivity` cast to `float`,
times an independent random matrix, element by element. -/
def randomWeights (A : Arith F) (rnd : RandomDraws F) (params : NetworkParamsNSLI F) : Mat F :=
  matOfFn params.neuronCount params.neuronCount (fun i j =>
    A.mul (if A.le (A.abs (rnd.mask i j)) params.connectivity then A.one else A.zero)
      (rnd.weights i j))

/-- The reservoir matrix `mW` built by the constructor: `matrixU * matrixV` of the SVD of
the raw weights, or the raw weights `/ spectralRadius * params.spectralRadius`;
`sparseView()` changes the storage, not the values. -/
def reservoirMatrix (A : Arith F) (L : LinAlg F) (rnd : RandomDraws F)
    (params : NetworkParamsNSLI F) : Mat F :=
  let raw := randomWeights A rnd params
  if params.useOrthonormalMatrix then
    matMul A params.neuronCount (L.matrixU raw) (L.matrixV raw)
  else
    let spectralRadius := L.eigenvaluesAbsMax raw
    raw.map (fun r => r.map (fun w => A.mul (A.div w spectralRadius) params.spectralRadius))

/-- The leaking rates `( Random * (max - min) + (min + max) ) / 2.0f`. -/
def leakingRates (A : Arith F) (rnd : RandomDraws F) (params : NetworkParamsNSLI F) : Vec F :=
  vecOfFn params.neuronCount (fun i =>
    A.div (A.add (A.mul (rnd.leakingRate i) (A.sub params.leakingRateMax params.leakingRateMin))
      (A.add params.leakingRateMin params.leakingRateMax)) A.two)

/-- Constructor `NetworkNSLI::NetworkNSLI(params)`. -/
def NetworkNSLI.create (A : Arith F) (L : LinAlg F) (rnd : RandomDraws F)
    (params : NetworkParamsNSLI F) : Except Error (NetworkNSLI F) :=
  if paramsRejected A params then .error .invalidArgument
  else
    let mLeakingRate := leakingRates A rnd params
    .ok
      { mParams := params
        mWIn := matOfFn params.neuronCount params.inputCount rnd.wIn
        mW := reservoirMatrix A L rnd params
        mWInScaling := vecOfFn params.inputCount (fun _ => A.one)
        mWInBias := vecOfFn params.inputCount (fun _ => A.zero)
        mWOut := matOfFn params.outputCount params.neuronCount (fun _ _ => A.zero)
        mOutScale := vecOfFn params.outputCount (fun _ => A.one)
        mOutBias := vecOfFn params.outputCount (fun _ => A.zero)
        mWFB := if params.hasOutputFeedback then
            matOfFn params.neuronCount params.outputCount rnd.wFB else []
        mWFBScaling := if params.hasOutputFeedback then
            vecOfFn params.outputCount (fun _ => A.one) else []
        mLeakingRate := mLeakingRate
        mOneMinusLeakingRate := mLeakingRate.map (fun r => A.sub A.one r)
        mIn := vecOfFn params.inputCount (fun _ => A.zero)
        mX := vecOfFn params.neuronCount rnd.x
        mOut := vecOfFn params.outputCount (fun _ => A.zero)
        mAdaptiveFilter := vecOfFn params.outputCount (fun _ =>
          AdaptiveFilterRLS.create A params.neuronCount
            params.onlineTrainingForgettingFactor params.onlineTrainingInitialCovariance) }

/-- Factory `CreateNetwork(params)`. -/
def CreateNetwork (A : Arith F) (L : LinAlg F) (rnd : RandomDraws F)
    (params : NetworkParamsNSLI F) : Except Error (NetworkNSLI F) :=
  NetworkNSLI.create A L rnd params

/-- Method `NetworkNSLI::SetInputs`. -/
def SetInputs (A : Arith F) (net : NetworkNSLI F) (inputs : Vec F) : Outcome F :=
  if inputs.length ≠ net.mIn.length then ⟨some .invalidArgument, net⟩
  else ⟨none, { net with mIn := cwiseProduct A (vadd A inputs net.mWInBias) net.mWInScaling }⟩

/-- Method `NetworkNSLI::SetInputScalings`. -/
def SetInputScalings (net : NetworkNSLI F) (scalings : Vec F) : Outcome F :=
  if scalings.length ≠ net.mParams.inputCount then ⟨some .invalidArgument, net⟩
  else ⟨none, { net with mWInScaling := scalings }⟩

/-- Method `NetworkNSLI::SetInputBias`. -/
def SetInputBias (net : NetworkNSLI F) (bias : Vec F) : Outcome F :=
  if bias.length ≠ net.mParams.inputCount then ⟨some .invalidArgument, net⟩
  else ⟨none, { net with mWInBias := bias }⟩

/-- Method `NetworkNSLI::SetOutputScale`. -/
def SetOutputScale (net : NetworkNSLI F) (scale : Vec F) : Outcome F :=
  if scale.length ≠ net.mParams.outputCount then ⟨some .invalidArgument, net⟩
  else ⟨none, { net with mOutScale := scale }⟩

/-- Method `NetworkNSLI::SetOutputBias`. -/
def SetOutputBias (net : NetworkNSLI F) (bias : Vec F) : Outcome F :=
  if bias.length ≠ net.mParams.outputCount then ⟨some .invalidArgument, net⟩
  else ⟨none, { net with mOutBias := bias }⟩

/-- Method `NetworkNSLI::SetFeedbackScalings`. -/
def SetFeedbackScalings (net : NetworkNSLI F) (scalings : Vec F) : Outcome F :=
  if !net.mParams.hasOutputFeedback then ⟨some .logicError, net⟩
  else if scalings.length ≠ net.mParams.outputCount then ⟨some .invalidArgument, net⟩
  else ⟨none, { net with mWFBScaling := scalings }⟩

/-- Source text `#define TEMP mWIn * mIn + mW * mX`. -/
def TEMP (A : Arith F) (net : NetworkNSLI F) : Vec F :=
  vadd A (matVec A net.mWIn net.mIn) (matVec A net.mW net.mX)

/-- Source text `#define CALC_X(val)`: the new value of `mX`,
`mOneMinusLeakingRate.cwiseProduct(mX) + mLeakingRate.cwiseProduct(val).unaryExpr(tanh)`. -/
def CALC_X (A : Arith F) (net : NetworkNSLI F) (val : Vec F) : Vec F :=
  vadd A (cwiseProduct A net.mOneMinusLeakingRate net.mX)
    (unaryExpr A.tanh (cwiseProduct A net.mLeakingRate val))

/-- Source text `#define CALC_X_WITH_FB(val)`. -/
def CALC_X_WITH_FB (A : Arith F) (net : NetworkNSLI F) (val : Vec F) : Vec F :=
  if net.mParams.hasOutputFeedback then CALC_X A net (vadd A (TEMP A net) val)
  else CALC_X A net (TEMP A net)

/-- The two assignments of `NetworkNSLI::Step`, to `mX` and then to `mOut`, in the
branch selected by `mParams.linearOutput`. -/
def StepUpdate (A : Arith F) (net : NetworkNSLI F) : NetworkNSLI F :=
  if net.mParams.linearOutput then
    let x := CALC_X_WITH_FB A net
      (matVec A net.mWFB (cwiseProduct A (unaryExpr A.tanh net.mOut) net.mWFBScaling))
    { net with mX := x, mOut := matVec A net.mWOut x }
  else
    let x := CALC_X_WITH_FB A net
      (matVec A net.mWFB (cwiseProduct A net.mOut net.mWFBScaling))
    { net with mX := x, mOut := unaryExpr A.tanh (matVec A net.mWOut x) }

/-- Method `NetworkNSLI::Step`: the step size check, the update of `mX` and `mOut`, and
the check that every output is finite. -/
def Step (A : Arith F) (net : NetworkNSLI F) (step : F) : Outcome F :=
  if A.le step A.zero then ⟨some .invalidArgument, net⟩
  else
    let net1 := StepUpdate A net
    if net1.mOut.any (fun n => !A.isfinite n) then ⟨some .outputIsNotFinite, net1⟩
    else ⟨none, net1⟩

/-- Method `NetworkNSLI::CaptureTransformedInput`. -/
def CaptureTransformedInput (A : Arith F) (net : NetworkNSLI F) (input : Vec F) : Captured F :=
  if input.length ≠ net.mParams.inputCount then ⟨some .invalidArgument, net, input⟩
  else ⟨none, net, (List.range net.mParams.inputCount).map (fun i => net.mIn.getD i A.zero)⟩

/-- Method `NetworkNSLI::CaptureActivations`. -/
def CaptureActivations (A : Arith F) (net : NetworkNSLI F) (activations : Vec F) : Captured F :=
  if activations.length ≠ net.mParams.neuronCount then ⟨some .invalidArgument, net, activations⟩
  else ⟨none, net, (List.range net.mParams.neuronCount).map (fun i => net.mX.getD i A.zero)⟩

/-- Method `NetworkNSLI::CaptureOutput`. -/
def CaptureOutput (A : Arith F) (net : NetworkNSLI F) (output : Vec F) : Captured F :=
  if output.length ≠ net.mParams.outputCount then ⟨some .invalidArgument, net, output⟩
  else ⟨none, net, (List.range net.mParams.outputCount).map (fun i =>
    A.add (A.mul (net.mOut.getD i A.zero) (net.mOutScale.getD i A.zero))
      (net.mOutBias.getD i A.zero))⟩

/-- State of the loop of `NetworkNSLI::Train`: exception, network, and the columns of
`matX` and `matY` filled so far. -/
structure TrainPass (F : Type) where
  err : Option Error
  net : NetworkNSLI F
  matX : List (Vec F)
  matY : List (Vec F)

/-- The sample loop of `NetworkNSLI::Train`: `SetInputs(inputs[i])`, `Step(0.1f)`,
`matX.col(i) = mX`, `matY.col(i) = outputs[i]` (its first `outputCount` values);
an exception of `SetInputs` or `Step` leaves the loop. -/
def TrainLoop (A : Arith F) :
    NetworkNSLI F → List (Vec F) → List (Vec F) → List (Vec F) → List (Vec F) → TrainPass F
  | net, [], _, xs, ys => ⟨none, net, xs, ys⟩
  | net, inp :: ins, outs, xs, ys =>
    match SetInputs A net inp with
    | ⟨some e, net1⟩ => ⟨some e, net1, xs, ys⟩
    | ⟨none, net1⟩ =>
      match Step A net1 A.tenth with
      | ⟨some e, net2⟩ => ⟨some e, net2, xs, ys⟩
      | ⟨none, net2⟩ =>
        TrainLoop A net2 ins outs.tail (xs ++ [net2.mX])
          (ys ++ [(outs.headD []).take net2.mParams.outputCount])

/-- The readout `matY * matXT * ( matX * matXT ).inverse()` for state columns `xs` and
target columns `ys`, with `matX` of size `neuronCount x kSampleCount`, `matY` of size
`outputCount x kSampleCount` and `matXT = matX.transpose()`. -/
def readout (A : Arith F) (L : LinAlg F) (neuronCount outputCount kSampleCount : Nat)
    (xs ys : List (Vec F)) : Mat F :=
  let matX := ofColumns A neuronCount xs
  let matY := ofColumns A outputCount ys
  let matXT := transpose A kSampleCount matX
  matMul A neuronCount (matMul A neuronCount matY matXT)
    (L.inverse (matMul A neuronCount matX matXT))

/-- Method `NetworkNSLI::Train`. -/
def Train (A : Arith F) (L : LinAlg F) (net : NetworkNSLI F)
    (inputs outputs : List (Vec F)) : Outcome F :=
  if inputs.length = 0 then ⟨some .invalidArgument, net⟩
  else if inputs.length ≠ outputs.length then ⟨some .invalidArgument, net⟩
  else
    match TrainLoop A net inputs outputs [] [] with
    | ⟨some e, net1, _, _⟩ => ⟨some e, net1⟩
    | ⟨none, net1, xs, ys⟩ =>
      ⟨none, { net1 with
        mWOut := readout A L net1.mParams.neuronCount net1.mParams.outputCount
          inputs.length xs ys }⟩

/-- The feedback term as the specification words it: `tanh(prevOutput) ⊙ feedbackScaling`
if linearOutput, `prevOutput ⊙ feedbackScaling` otherwise. -/
def feedbackTerm (A : Arith F) (net : NetworkNSLI F) : Vec F :=
  if net.mParams.linearOutput then
    cwiseProduct A (unaryExpr A.tanh net.mOut) net.mWFBScaling
  else cwiseProduct A net.mOut net.mWFBScaling

/-- The pre-activation as the specification words it: `W_in·input + W·state`, plus
`W_fb·feedbackTerm` if hasOutputFeedback. -/
def preActivation (A : Arith F) (net : NetworkNSLI F) : Vec F :=
  if net.mParams.hasOutputFeedback then
    vadd A (vadd A (matVec A net.mWIn net.mIn) (matVec A net.mW net.mX))
      (matVec A net.mWFB (feedbackTerm A net))
  else vadd A (matVec A net.mWIn net.mIn) (matVec A net.mW net.mX)

/-- The state update as the specification words it:
`(1 - leakingRate) ⊙ state + leakingRate ⊙ tanh(preActivation)`. -/
def specState (A : Arith F) (net : NetworkNSLI F) : Vec F :=
  vadd A (cwiseProduct A (net.mLeakingRate.map (fun r => A.sub A.one r)) net.mX)
    (cwiseProduct A net.mLeakingRate (unaryExpr A.tanh (preActivation A net)))

/-- The state update with the leaking rate applied inside the `tanh`:
`(1 - leakingRate) ⊙ state + tanh(leakingRate ⊙ preActivation)`. -/
def leakyState (A : Arith F) (net : NetworkNSLI F) : Vec F :=
  vadd A (cwiseProduct A (net.mLeakingRate.map (fun r => A.sub A.one r)) net.mX)
    (unaryExpr A.tanh (cwiseProduct A net.mLeakingRate (preActivation A net)))

/-- One training sample as the specification words it: SetInputs, then Step with the
fixed internal step 0.1; the network after both. -/
def advance (A : Arith F) (net : NetworkNSLI F) (input : Vec F) : NetworkNSLI F :=
  (Step A (SetInputs A net input).net A.tenth).net

/-- The networks reached after each sample, in sample order, from a starting network. -/
def trajectory (A : Arith F) : NetworkNSLI F → List (Vec F) → List (NetworkNSLI F)
  | _, [] => []
  | net, inp :: ins => advance A net inp :: trajectory A (advance A net inp) ins

/-- Dimension invariant of a network: every vector and matrix has the size the
constructor gave it. -/
def NetworkNSLI.WellFormed (net : NetworkNSLI F) : Prop :=
  net.mIn.length = net.mParams.inputCount ∧
  net.mWInScaling.length = net.mParams.inputCount ∧
  net.mWInBias.length = net.mParams.inputCount ∧
  net.mWIn.length = net.mParams.neuronCount ∧
  net.mX.length = net.mParams.neuronCount ∧
  net.mW.length = net.mParams.neuronCount ∧
  net.mLeakingRate.length = net.mParams.neuronCount ∧
  net.mOneMinusLeakingRate.length = net.mParams.neuronCount ∧
  net.mOut.length = net.mParams.outputCount ∧
  net.mOutScale.length = net.mParams.outputCount ∧
  net.mOutBias.length = net.mParams.outputCount ∧
  net.mWOut.length = net.mParams.outputCount ∧
  net.mAdaptiveFilter.length = net.mParams.outputCount ∧
  (net.mParams.hasOutputFeedback = true → net.mWFB.length = net.mParams.neuronCount)

instance (net : NetworkNSLI F) : Decidable net.WellFormed := by
  unfold NetworkNSLI.WellFormed; infer_instance

/-- The target without bias and scaling, `(value - mOutBias(index)) / mOutScale(index)`,
first statement of `NetworkNSLI::TrainSingleOutputOnline`. -/
def denormalize (A : Arith F) (net : NetworkNSLI F) (index : Nat) (value : F) : F :=
  A.div (A.sub value (net.mOutBias.getD index A.zero)) (net.mOutScale.getD index A.zero)

/-- The call `mAdaptiveFilter[index]->Train(w, ...)` of
`NetworkNSLI::TrainSingleOutputOnline` on `w = mWOut.row(index)`: with the stored output
and the target passed through `atanh` unless `linearOutput` is set, and `mX` as
regressor. -/
def filterCall (A : Arith F) (net : NetworkNSLI F) (index : Nat) (_value : F) :
    FilterOutcome F :=
  let w := net.mWOut.getD index []
  let filter := net.mAdaptiveFilter.getD index ⟨A.zero, []⟩
  if !net.mParams.linearOutput then
    filter.Train A w (A.atanh (net.mOut.getD index A.zero)) (A.atanh _value) net.mX
  else filter.Train A w (net.mOut.getD index A.zero) _value net.mX

/-- Method `NetworkNSLI::TrainSingleOutputOnline`; `index` is below `outputCount` in every
call of the source.  An exception of the filter leaves the method before `mWOut` and
`mOut` are written. -/
def TrainSingleOutputOnline (A : Arith F) (net : NetworkNSLI F) (index : Nat) (value : F)
    (force : Bool) : Outcome F :=
  let _value := denormalize A net index value
  let r := filterCall A net index _value
  match r.err with
  | some e => ⟨some e, { net with mAdaptiveFilter := net.mAdaptiveFilter.set index r.filter }⟩
  | none =>
    ⟨none, { net with
      mAdaptiveFilter := net.mAdaptiveFilter.set index r.filter
      mWOut := net.mWOut.set index r.w
      mOut := if force then net.mOut.set index _value else net.mOut }⟩

/-- The loop of `NetworkNSLI::TrainOnline` over the channel indices. -/
def TrainOnlineLoop (A : Arith F) : List Nat → NetworkNSLI F → Vec F → Bool → Outcome F
  | [], net, _, _ => ⟨none, net⟩
  | i :: rest, net, output, forceOutput =>
    match TrainSingleOutputOnline A net i (output.getD i A.zero) forceOutput with
    | ⟨some e, net1⟩ => ⟨some e, net1⟩
    | ⟨none, net1⟩ => TrainOnlineLoop A rest net1 output forceOutput

/-- Method `NetworkNSLI::TrainOnline`: `TrainSingleOutputOnline(i, output[i], forceOutput)`
for `i` from 0 below `outputCount`. -/
def TrainOnline (A : Arith F) (net : NetworkNSLI F) (output : Vec F) (forceOutput : Bool) :
    Outcome F :=
  TrainOnlineLoop A (List.range net.mParams.outputCount) net output forceOutput

/-- Dimension invariant of the readout and of the adaptive filters: every row of `mWOut`
and every covariance matrix has `neuronCount` rows or entries, as the constructor sets
them. -/
def NetworkNSLI.OnlineWellFormed (net : NetworkNSLI F) : Prop :=
  (∀ r ∈ net.mWOut, r.length = net.mParams.neuronCount) ∧
  (∀ f ∈ net.mAdaptiveFilter, f.mP.length = net.mParams.neuronCount)

instance (net : NetworkNSLI F) : Decidable net.OnlineWellFormed := by
  unfold NetworkNSLI.OnlineWellFormed; infer_instance

/-- One call of a method that drives the network: `SetInputs`, `Step`, `Train` or
`TrainOnline`, with its arguments. -/
inductive Call (F : Type) where
  | setInputs (inputs : Vec F)
  | step (stepSize : F)
  | train (inputs outputs : List (Vec F))
  | trainOnline (output : Vec F) (forceOutput : Bool)

/-- The network left behind by one call, whether it returned or threw. -/
def Call.run (A : Arith F) (L : LinAlg F) (net : NetworkNSLI F) : Call F → NetworkNSLI F
  | .setInputs inputs => (SetInputs A net inputs).net
  | .step stepSize => (Step A net stepSize).net
  | .train inputs outputs => (Train A L net inputs outputs).net
  | .trainOnline output forceOutput => (TrainOnline A net output forceOutput).net

/-- The network left behind by a sequence of calls, made in order. -/
def runCalls (A : Arith F) (L : LinAlg F) (net : NetworkNSLI F) (calls : List (Call F)) :
    NetworkNSLI F :=
  calls.foldl (Call.run A L) net

/-- The bound `|mX(i)| <= 1 / mLeakingRate(i)` evaluated in the arithmetic of the network,
for every neuron. -/
def boundHolds (A : Arith F) (net : NetworkNSLI F) : Bool :=
  (List.zipWith (fun x r => A.le (A.abs x) (A.div A.one r)) net.mX net.mLeakingRate).all id

end Network

section Models

/-- Exact arithmetic over an ordered field `K`, with given `tanh` and `atanh`;
every value is finite. -/
def fieldArith (K : Type) [LinearOrderedField K] (tanh atanh : K → K) : Arith K :=
  { zero := 0
    one := 1
    two := 2
    tenth := 1 / 10
    add := fun a b => a + b
    sub := fun a b => a - b
    mul := fun a b => a * b
    div := fun a b => a / b
    abs := fun a => |a|
    tanh := tanh
    atanh := atanh
    le := fun a b => decide (a ≤ b)
    lt := fun a b => decide (a < b)
    isfinite := fun _ => true }

/-- Arithmetic over an ordered field `K` extended with one non-finite value `none`
(a NaN): operations propagate it, comparisons with it are false, division by zero
yields it. -/
def nanArith (K : Type) [LinearOrderedField K] (tanh atanh : K → K) : Arith (Option K) :=
  { zero := some 0
    one := some 1
    two := some 2
    tenth := some (1 / 10)
    add := fun a b => match a, b with
      | some x, some y => some (x + y)
      | _, _ => none
    sub := fun a b => match a, b with
      | some x, some y => some (x - y)
      | _, _ => none
    mul := fun a b => match a, b with
      | some x, some y => some (x * y)
      | _, _ => none
    div := fun a b => match a, b with
      | some x, some y => if y = 0 then none else some (x / y)
      | _, _ => none
    abs := fun a => a.map (fun x => |x|)
    tanh := fun a => a.map tanh
    atanh := fun a => a.map atanh
    le := fun a b => match a, b with
      | some x, some y => decide (x ≤ y)
      | _, _ => false
    lt := fun a b => match a, b with
      | some x, some y => decide (x < y)
      | _, _ => false
    isfinite := fun a => a.isSome }

/-- A rational squashing function, standing in for `tanh` where a concrete
computable arithmetic is needed. -/
def softsign (x : ℚ) : ℚ := x / (1 + |x|)

/-- Computable rational arithmetic. -/
def ratArith : Arith ℚ := fieldArith ℚ softsign softsign

/-- Linear algebra routines for 1 x 1 matrices: the inverse of `[[x]]` is `[[1 / x]]`,
its singular value decomposition is `sign x * |x| * 1`, its only eigenvalue is `x`. -/
def oneByOneLinAlg {F : Type} (A : Arith F) : LinAlg F :=
  { inverse := fun M => M.map (fun r => r.map (fun x => A.div A.one x))
    matrixU := fun M => M.map (fun r => r.map (fun x =>
      if A.lt x A.zero then A.sub A.zero A.one else A.one))
    matrixV := fun M => M.map (fun r => r.map (fun _ => A.one))
    eigenvaluesAbsMax := fun M => A.abs ((M.headD []).headD A.zero) }

/-- A one-input, one-neuron, one-output network with leaking rate `lr`, `mWIn = 1`,
`mW = 0`, zero state, stored input `1`, zero readout. -/
def unitNet {F : Type} (A : Arith F) (lr : F) (feedback linear : Bool) : NetworkNSLI F :=
  { mParams :=
      { inputCount := 1, neuronCount := 1, outputCount := 1
        leakingRateMin := lr, leakingRateMax := lr
        connectivity := A.one, spectralRadius := A.one
        useOrthonormalMatrix := false
        hasOutputFeedback := feedback, linearOutput := linear
        onlineTrainingForgettingFactor := A.one
        onlineTrainingInitialCovariance := A.one }
    mIn := [A.one]
    mWIn := [[A.one]]
    mWInScaling := [A.one]
    mWInBias := [A.zero]
    mX := [A.zero]
    mW := [[A.zero]]
    mLeakingRate := [lr]
    mOneMinusLeakingRate := [A.sub A.one lr]
    mOut := [A.zero]
    mOutScale := [A.one]
    mOutBias := [A.zero]
    mWOut := [[A.zero]]
    mWFB := if feedback then [[A.one]] else []
    mWFBScaling := if feedback then [A.one] else []
    mAdaptiveFilter := [AdaptiveFilterRLS.create A 1 A.one A.one] }

/-- Singular value decomposition of the 3 x 3 matrix with rows `[0, 1, 0]`,
`[0, 0, 1/2]`, `[1/4, 0, 0]`, which is `U · diag(1, 1/2, 1/4) · Vᵀ` with `U` the identity
and `V` the cyclic permutation with rows `[0, 0, 1]`, `[1, 0, 0]`, `[0, 1, 0]`; its
largest eigenvalue magnitude is `1/2`.  The inverse is not used with it. -/
def cyclicLinAlg {F : Type} (A : Arith F) : LinAlg F :=
  { inverse := fun M => M
    matrixU := fun _ => [[A.one, A.zero, A.zero], [A.zero, A.one, A.zero],
      [A.zero, A.zero, A.one]]
    matrixV := fun _ => [[A.zero, A.zero, A.one], [A.one, A.zero, A.zero],
      [A.zero, A.one, A.zero]]
    eigenvaluesAbsMax := fun _ => A.div A.one A.two }

/-- Parameters of a 3-neuron network with an orthonormal reservoir, connectivity 1/2. -/
def cyclicParams : NetworkParamsNSLI ℚ :=
  { inputCount := 1, neuronCount := 3, outputCount := 1
    leakingRateMin := 3 / 10, leakingRateMax := 3 / 10
    connectivity := 1 / 2, spectralRadius := 9 / 10
    useOrthonormalMatrix := true
    hasOutputFeedback := false, linearOutput := true
    onlineTrainingForgettingFactor := 1
    onlineTrainingInitialCovariance := 1 }

/-- Random draws whose mask keeps the positions (0,1), (1,2), (2,0) and whose weights
there are 1, 1/2, 1/4: the raw reservoir weights are `[0, 1, 0]`, `[0, 0, 1/2]`,
`[1/4, 0, 0]`. -/
def cyclicDraws : RandomDraws ℚ :=
  { wIn := fun _ _ => 1 / 2
    mask := fun i j => if (i + 1) % 3 = j then 0 else 1
    weights := fun i _ => if i = 0 then 1 else if i = 1 then 1 / 2 else 1 / 4
    wFB := fun _ _ => 1 / 2
    leakingRate := fun _ => 0
    x := fun _ => 1 / 2 }

/-- Valid parameters of a one-neuron network with connectivity 1/10, spectral radius 9/10
and leaking rate 3/10, over a field extended with a NaN. -/
def maskedParams (K : Type) [LinearOrderedField K] : NetworkParamsNSLI (Option K) :=
  { inputCount := 1, neuronCount := 1, outputCount := 1
    leakingRateMin := some (3 / 10), leakingRateMax := some (3 / 10)
    connectivity := some (1 / 10), spectralRadius := some (9 / 10)
    useOrthonormalMatrix := false
    hasOutputFeedback := false, linearOutput := true
    onlineTrainingForgettingFactor := some 1
    onlineTrainingInitialCovariance := some 1 }

/-- Random draws all equal to 1/2: the mask draw exceeds the connectivity 1/10, so the
only reservoir weight is masked out and the raw weight matrix is zero. -/
def maskedDraws (K : Type) [LinearOrderedField K] : RandomDraws (Option K) :=
  { wIn := fun _ _ => some (1 / 2)
    mask := fun _ _ => some (1 / 2)
    weights := fun _ _ => some (1 / 2)
    wFB := fun _ _ => some (1 / 2)
    leakingRate := fun _ => some (1 / 2)
    x := fun _ => some (1 / 2) }

/-- The parameters of the end-to-end scenario of the specification: inputCount 2,
neuronCount 50, outputCount 1, connectivity 0.1, spectralRadius 0.9, leaking rate 0.3,
linear output, no output feedback. -/
def scenarioParams : NetworkParamsNSLI ℚ :=
  { inputCount := 2, neuronCount := 50, outputCount := 1
    leakingRateMin := 3 / 10, leakingRateMax := 3 / 10
    connectivity := 1 / 10, spectralRadius := 9 / 10
    useOrthonormalMatrix := false
    hasOutputFeedback := false, linearOutput := true
    onlineTrainingForgettingFactor := 1
    onlineTrainingInitialCovariance := 1 }

/-- Some random draws in `[-1, 1]` for the end-to-end scenario. -/
def scenarioDraws : RandomDraws ℚ :=
  { wIn := fun i j => 1 / ((i : ℚ) + j + 1)
    mask := fun i j => if (i + j) % 10 = 0 then 1 / 20 else 1 / 2
    weights := fun i j => 1 / ((i : ℚ) + 2) - 1 / ((j : ℚ) + 2)
    wFB := fun _ _ => 1 / 2
    leakingRate := fun i => 1 / ((i : ℚ) + 1)
    x := fun i => 1 / ((i : ℚ) + 3) }

/-- Laws of zero shared by IEEE arithmetic (up to the sign of zero) and exact arithmetic:
`0 + 0 = 0`, `0 * x = 0` for finite `x`, `0` and `1` are finite, `tanh 0 = 0`. -/
structure Arith.ZeroLaws {F : Type} (A : Arith F) : Prop where
  add_zero_zero : A.add A.zero A.zero = A.zero
  zero_mul : ∀ x : F, A.isfinite x = true → A.mul A.zero x = A.zero
  isfinite_zero : A.isfinite A.zero = true
  isfinite_one : A.isfinite A.one = true
  tanh_zero : A.tanh A.zero = A.zero

/-- Nearest integer to `m`, a tie going to the even neighbour. -/
def roundHalfEven {K : Type} [LinearOrderedField K] [FloorRing K] (m : K) : Int :=
  let f := Int.floor m
  let r := m - (f : K)
  if r < 1 / 2 then f else if 1 / 2 < r then f + 1 else if f % 2 = 0 then f else f + 1

/-- Rounding to the nearest binary floating-point number with `p` significant bits, ties
to even: for `2^e <= |x| < 2^(e+1)` the result is the multiple of `2^(e-p+1)` nearest to
`x`.  With `p = 24` this is the rounding of IEEE binary32 (`float`) in its normal range;
the exponent range is not bounded, so there is no overflow and no subnormal number. -/
def roundNearestEven {K : Type} [LinearOrderedField K] [FloorRing K] (p : Nat) (x : K) : K :=
  if x = 0 then 0
  else
    let q : K := (2 : K) ^ (Int.log 2 |x| - (p : Int) + 1)
    (if x < 0 then -1 else 1) * ((roundHalfEven (|x| / q) : Int) : K) * q

/-- Laws of a rounding function shared by every IEEE rounding to nearest: it is monotone,
odd, and leaves 1 unchanged. -/
structure RoundingLaws {K : Type} [LinearOrderedField K] (rnd : K → K) : Prop where
  mono : ∀ x y, x ≤ y → rnd x ≤ rnd y
  odd : ∀ x, rnd (-x) = -rnd x
  one : rnd 1 = 1

/-- Rounded arithmetic extended with one non-finite value `none` (a NaN): the operations
of `roundArith` on numbers, with the NaN propagated, comparisons with it false and
division by zero yielding it.  With `rnd = id` this is `nanArith`. -/
def floatArith (K : Type) [LinearOrderedField K] (rnd tanh atanh : K → K) :
    Arith (Option K) :=
  { zero := some 0
    one := some 1
    two := some 2
    tenth := some (rnd (1 / 10))
    add := fun a b => match a, b with
      | some x, some y => some (rnd (x + y))
      | _, _ => none
    sub := fun a b => match a, b with
      | some x, some y => some (rnd (x - y))
      | _, _ => none
    mul := fun a b => match a, b with
      | some x, some y => some (rnd (x * y))
      | _, _ => none
    div := fun a b => match a, b with
      | some x, some y => if y = 0 then none else some (rnd (x / y))
      | _, _ => none
    abs := fun a => a.map (fun x => |x|)
    tanh := fun a => a.map tanh
    atanh := fun a => a.map atanh
    le := fun a b => match a, b with
      | some x, some y => decide (x ≤ y)
      | _, _ => false
    lt := fun a b => match a, b with
      | some x, some y => decide (x < y)
      | _, _ => false
    isfinite := fun a => a.isSome }

/-- Every state component that is a number (not a NaN) is bounded by its entry of `B`:
`|mX(i)| <= B(i)`. -/
def StateBoundedBy {K : Type} [LinearOrderedField K] (B : List K)
    (net : NetworkNSLI (Option K)) : Prop :=
  ∀ (i : Nat) (a b : K), net.mX[i]? = some (some a) → B[i]? = some b → |a| ≤ b

/-- The bounds `B` are closed under the state update in the arithmetic rounded by `rnd`:
every `B(i)` is at least 1, and wherever the cached complement `mOneMinusLeakingRate(i)`
is a number `c`, it is not negative and `c * B(i) + 1`, evaluated with rounding, is at
most `B(i)`. -/
def Admissible {K : Type} [LinearOrderedField K] (rnd : K → K) (B : List K)
    (net : NetworkNSLI (Option K)) : Prop :=
  ∀ (i : Nat) (b : K), B[i]? = some b →
    1 ≤ b ∧ ∀ c : K, net.mOneMinusLeakingRate[i]? = some (some c) →
      0 ≤ c ∧ rnd (rnd (c * b) + 1) ≤ b

/-- Every leaking rate is a number in `(0, 1]`. -/
def RatesInUnit {K : Type} [LinearOrderedField K] (net : NetworkNSLI (Option K)) : Prop :=
  ∀ r ∈ net.mLeakingRate, ∃ b : K, r = some b ∧ 0 < b ∧ b ≤ 1

end Models

/-! ## Properties -/

section Lemmas

variable {F : Type}

theorem fieldArith_ordered (K : Type) [LinearOrderedField K] (tanh atanh : K → K) :
    (fieldArith K tanh atanh).Ordered where
  le_zero_zero := by simp [fieldArith]
  not_le_of_lt := by
    intro a b h
    simp only [fieldArith, decide_eq_true_eq, decide_eq_false_iff_not, not_le] at h ⊢
    exact h
  tenth_pos := by simp [fieldArith]

theorem nanArith_ordered (K : Type) [LinearOrderedField K] (tanh atanh : K → K) :
    (nanArith K tanh atanh).Ordered where
  le_zero_zero := by simp [nanArith]
  not_le_of_lt := by
    intro a b h
    cases a <;> cases b <;> simp_all [nanArith]
  tenth_pos := by simp [nanArith]

theorem ratArith_ordered : ratArith.Ordered := fieldArith_ordered ℚ softsign softsign

theorem range_map_getD (l : List F) (d : F) (n : Nat) (h : l.length = n) :
    (List.range n).map (fun i => l.getD i d) = l := by
  subst h
  apply List.ext_getElem
  · simp
  · intro i h1 h2
    simp [List.getD_eq_getElem?_getD, List.getElem?_eq_getElem h2]

theorem getElem?_zipWith_getD (f : F → F → F) (l1 l2 : List F) (i : Nat) (a b : F)
    (h1 : i < l1.length) (h2 : i < l2.length) :
    (List.zipWith f l1 l2)[i]? = some (f (l1.getD i a) (l2.getD i b)) := by
  rw [List.getElem?_zipWith]
  simp [List.getD_eq_getElem?_getD, List.getElem?_eq_getElem h1, List.getElem?_eq_getElem h2]

theorem getD_zipWith (f : F → F → F) (l1 l2 : List F) (i : Nat) (a b c : F)
    (h1 : i < l1.length) (h2 : i < l2.length) :
    (List.zipWith f l1 l2).getD i c = f (l1.getD i a) (l2.getD i b) := by
  rw [List.getD_eq_getElem?_getD, getElem?_zipWith_getD f l1 l2 i a b h1 h2]
  rfl

theorem tanh_half_ne : Real.tanh (1 / 2) ≠ 1 / 2 * Real.tanh 1 := by
  have e1 : Real.sinh 1 = 2 * Real.sinh (1 / 2) * Real.cosh (1 / 2) := by
    rw [← Real.sinh_two_mul]; norm_num
  have e2 : Real.cosh 1 = Real.cosh (1 / 2) ^ 2 + Real.sinh (1 / 2) ^ 2 := by
    rw [← Real.cosh_two_mul]; norm_num
  have hs : 0 < Real.sinh (1 / 2) := Real.sinh_pos_iff.mpr (by norm_num)
  have hc : 0 < Real.cosh (1 / 2) := Real.cosh_pos _
  intro h
  rw [Real.tanh_eq_sinh_div_cosh, Real.tanh_eq_sinh_div_cosh, e1, e2] at h
  generalize Real.sinh (1 / 2) = s at *
  generalize Real.cosh (1 / 2) = c at *
  have hcs : 0 < c ^ 2 + s ^ 2 := by positivity
  field_simp at h
  have h3 : s ^ 3 = 0 := by nlinarith
  have : 0 < s ^ 3 := by positivity
  linarith

theorem SetInputs_ok (A : Arith F) (net : NetworkNSLI F) (raw : Vec F)
    (h : raw.length = net.mIn.length) :
    SetInputs A net raw =
      ⟨none, { net with mIn := cwiseProduct A (vadd A raw net.mWInBias) net.mWInScaling }⟩ := by
  simp [SetInputs, h]

theorem Step_net (A : Arith F) (net : NetworkNSLI F) (step : F)
    (hg : A.le step A.zero = false) : (Step A net step).net = StepUpdate A net := by
  unfold Step
  simp only [hg, Bool.false_eq_true, if_false]
  split_ifs <;> rfl

theorem StepUpdate_frame (A : Arith F) (net : NetworkNSLI F) :
    (StepUpdate A net).mParams = net.mParams ∧ (StepUpdate A net).mIn = net.mIn ∧
    (StepUpdate A net).mWInBias = net.mWInBias ∧
    (StepUpdate A net).mWInScaling = net.mWInScaling ∧
    (StepUpdate A net).mWOut = net.mWOut := by
  unfold StepUpdate
  split_ifs <;> simp

theorem Step_leakingRate_frame (A : Arith F) (net : NetworkNSLI F) (step : F) :
    (Step A net step).net.mLeakingRate = net.mLeakingRate ∧
    (Step A net step).net.mOneMinusLeakingRate = net.mOneMinusLeakingRate := by
  cases hg : A.le step A.zero
  · rw [Step_net A net step hg]
    unfold StepUpdate
    split_ifs <;> simp
  · simp [Step, hg]

theorem Step_frame (A : Arith F) (net : NetworkNSLI F) (step : F) :
    (Step A net step).net.mParams = net.mParams ∧ (Step A net step).net.mIn = net.mIn ∧
    (Step A net step).net.mWInBias = net.mWInBias ∧
    (Step A net step).net.mWInScaling = net.mWInScaling := by
  obtain ⟨h1, h2, h3, h4, -⟩ := StepUpdate_frame A net
  cases hg : A.le step A.zero
  · rw [Step_net A net step hg]
    exact ⟨h1, h2, h3, h4⟩
  · simp [Step, hg]

theorem Step_err_none (A : Arith F) (net : NetworkNSLI F) (step : F)
    (hg : A.le step A.zero = false)
    (hfin : ∀ o ∈ (Step A net step).net.mOut, A.isfinite o = true) :
    (Step A net step).err = none := by
  rw [Step_net A net step hg] at hfin
  unfold Step
  simp only [hg, Bool.false_eq_true, if_false]
  split_ifs with h2
  · exfalso
    simp only [List.any_eq_true, Bool.not_eq_true_eq_eq_false] at h2
    obtain ⟨o, ho, hf⟩ := h2
    rw [hfin o ho] at hf
    exact Bool.noConfusion hf
  · rfl

theorem advance_frame (A : Arith F) (net : NetworkNSLI F) (inp : Vec F)
    (hlen : inp.length = net.mParams.inputCount)
    (hin : net.mIn.length = net.mParams.inputCount)
    (hbi : net.mWInBias.length = net.mParams.inputCount)
    (hsc : net.mWInScaling.length = net.mParams.inputCount) :
    (advance A net inp).mParams = net.mParams ∧
    (advance A net inp).mIn.length = net.mParams.inputCount ∧
    (advance A net inp).mWInBias.length = net.mParams.inputCount ∧
    (advance A net inp).mWInScaling.length = net.mParams.inputCount := by
  obtain ⟨h1, h2, h3, h4⟩ := Step_frame A (SetInputs A net inp).net A.tenth
  unfold advance
  rw [h1, h2, h3, h4, SetInputs_ok A net inp (by rw [hlen, hin])]
  simp [cwiseProduct, vadd, hlen, hbi, hsc]

theorem TrainLoop_eq (A : Arith F) (hA : A.Ordered) :
    ∀ (ins : List (Vec F)) (net : NetworkNSLI F) (outs xs ys : List (Vec F)),
      net.mIn.length = net.mParams.inputCount →
      net.mWInBias.length = net.mParams.inputCount →
      net.mWInScaling.length = net.mParams.inputCount →
      (∀ v ∈ ins, v.length = net.mParams.inputCount) →
      ins.length = outs.length →
      (∀ v ∈ outs, v.length = net.mParams.outputCount) →
      (∀ n ∈ trajectory A net ins, ∀ o ∈ n.mOut, A.isfinite o = true) →
      TrainLoop A net ins outs xs ys =
        ⟨none, ins.foldl (advance A) net, xs ++ (trajectory A net ins).map (fun n => n.mX),
          ys ++ outs⟩ := by
  intro ins
  induction ins with
  | nil =>
    intro net outs xs ys _ _ _ _ hlen _ _
    have : outs = [] := List.length_eq_zero.mp hlen.symm
    simp [TrainLoop, trajectory, this]
  | cons inp ins ih =>
    intro net outs xs ys hin hbi hsc hlens hlen houts hfin
    cases outs with
    | nil => simp at hlen
    | cons o outs =>
      have hinp : inp.length = net.mParams.inputCount := hlens inp (List.mem_cons_self _ _)
      obtain ⟨f1, f2, f3, f4⟩ := advance_frame A net inp hinp hin hbi hsc
      have hset := SetInputs_ok A net inp (by rw [hinp, hin])
      have hadv : (Step A { net with
          mIn := cwiseProduct A (vadd A inp net.mWInBias) net.mWInScaling } A.tenth).net =
          advance A net inp := by
        unfold advance
        rw [hset]
      have herr : (Step A { net with
          mIn := cwiseProduct A (vadd A inp net.mWInBias) net.mWInScaling } A.tenth).err =
          none := by
        apply Step_err_none A _ _ (hA.not_le_of_lt _ _ hA.tenth_pos)
        rw [hadv]
        exact hfin _ (by simp [trajectory])
      have hstep : Step A { net with
          mIn := cwiseProduct A (vadd A inp net.mWInBias) net.mWInScaling } A.tenth =
          ⟨none, advance A net inp⟩ := by
        rw [← hadv, ← herr]
      have ho : o.length = net.mParams.outputCount := houts o (List.mem_cons_self _ _)
      unfold TrainLoop
      rw [hset]
      simp only [hstep]
      rw [ih (advance A net inp) _ _ _ (by rw [f1]; exact f2) (by rw [f1]; exact f3)
        (by rw [f1]; exact f4)
        (by rw [f1]; exact fun v hv => hlens v (List.mem_cons_of_mem _ hv))
        (by simpa using hlen)
        (by rw [f1]; exact fun v hv => houts v (List.mem_cons_of_mem _ hv))
        (fun n hn => hfin n (by simp [trajectory, hn]))]
      simp [trajectory, f1, ← ho]

theorem trajectory_getLast_getD (A : Arith F) :
    ∀ (ins : List (Vec F)) (net : NetworkNSLI F),
      (trajectory A net ins).getLast?.getD net = ins.foldl (advance A) net := by
  intro ins
  induction ins with
  | nil => intro net; rfl
  | cons inp ins ih =>
    intro net
    rw [trajectory, List.getLast?_cons]
    exact ih (advance A net inp)

theorem trajectory_getLast (A : Arith F) (ins : List (Vec F)) (net : NetworkNSLI F)
    (h : ins ≠ []) : (trajectory A net ins).getLast? = some (ins.foldl (advance A) net) := by
  cases ins with
  | nil => exact absurd rfl h
  | cons inp ins =>
    rw [trajectory, List.getLast?_cons, trajectory_getLast_getD]
    rfl

theorem create_ok (A : Arith F) (L : LinAlg F) (rnd : RandomDraws F)
    (params : NetworkParamsNSLI F) (net : NetworkNSLI F)
    (hU : params.useOrthonormalMatrix = true →
      (L.matrixU (randomWeights A rnd params)).length = params.neuronCount)
    (h : NetworkNSLI.create A L rnd params = .ok net) :
    net.mParams = params ∧ net.WellFormed ∧
    net.mOneMinusLeakingRate = net.mLeakingRate.map (fun r => A.sub A.one r) := by
  unfold NetworkNSLI.create at h
  by_cases hr : paramsRejected A params = true
  · rw [if_pos hr] at h
    cases h
  · rw [if_neg hr] at h
    injection h with h
    subst h
    refine ⟨rfl, ?_, rfl⟩
    simp only [NetworkNSLI.WellFormed, vecOfFn, matOfFn, leakingRates, reservoirMatrix,
      randomWeights, matMul]
    refine ⟨by simp, by simp, by simp, by simp, by simp, ?_, by simp, by simp, by simp,
      by simp, by simp, by simp, by simp, ?_⟩
    · split_ifs with ho
      · simpa [randomWeights, matOfFn] using hU ho
      · simp
    · intro hfb
      simp [hfb]

theorem SetInputs_wellFormed (A : Arith F) (net : NetworkNSLI F) (raw : Vec F)
    (hwf : net.WellFormed) : (SetInputs A net raw).net.WellFormed := by
  unfold SetInputs
  split_ifs with h
  · exact hwf
  · obtain ⟨h1, h2, h3, rest⟩ := hwf
    refine ⟨?_, h2, h3, rest⟩
    have : raw.length = net.mParams.inputCount := by
      rw [← h1]
      exact not_not.mp h
    simp [cwiseProduct, vadd, this, h2, h3]

theorem StepUpdate_wellFormed (A : Arith F) (net : NetworkNSLI F)
    (hwf : net.WellFormed) : (StepUpdate A net).WellFormed := by
  obtain ⟨h1, h2, h3, h4, h5, h6, h7, h8, h9, h10, h11, h12, h13, h14⟩ := hwf
  have hx : ∀ val : Vec F, (CALC_X_WITH_FB A net
      (matVec A net.mWFB val)).length = net.mParams.neuronCount := by
    intro val
    unfold CALC_X_WITH_FB
    split_ifs with hfb
    · simp [CALC_X, TEMP, vadd, cwiseProduct, unaryExpr, matVec, h4, h5, h6, h7, h8, h14 hfb]
    · simp [CALC_X, TEMP, vadd, cwiseProduct, unaryExpr, matVec, h4, h5, h6, h7, h8]
  unfold StepUpdate
  split_ifs
  · exact ⟨h1, h2, h3, h4, hx _, h6, h7, h8, by simp [matVec, h12], h10, h11, h12, h13, h14⟩
  · exact ⟨h1, h2, h3, h4, hx _, h6, h7, h8, by simp [matVec, unaryExpr, h12], h10, h11, h12,
      h13, h14⟩

theorem Step_wellFormed (A : Arith F) (net : NetworkNSLI F) (step : F)
    (hwf : net.WellFormed) : (Step A net step).net.WellFormed := by
  cases hg : A.le step A.zero
  · rw [Step_net A net step hg]
    exact StepUpdate_wellFormed A net hwf
  · simpa [Step, hg] using hwf

theorem create_of_valid (A : Arith F) (L : LinAlg F) (rnd : RandomDraws F)
    (params : NetworkParamsNSLI F) (h : paramsRejected A params = false) :
    ∃ net, NetworkNSLI.create A L rnd params = .ok net ∧ net.mParams = params ∧
      net.mIn = vecOfFn params.inputCount (fun _ => A.zero) ∧
      net.mWInScaling = vecOfFn params.inputCount (fun _ => A.one) ∧
      net.mWInBias = vecOfFn params.inputCount (fun _ => A.zero) ∧
      net.mW = reservoirMatrix A L rnd params ∧
      net.mLeakingRate = leakingRates A rnd params ∧
      net.mOneMinusLeakingRate = (leakingRates A rnd params).map (fun r => A.sub A.one r) ∧
      net.mOut = vecOfFn params.outputCount (fun _ => A.zero) ∧
      net.mOutScale = vecOfFn params.outputCount (fun _ => A.one) ∧
      net.mOutBias = vecOfFn params.outputCount (fun _ => A.zero) ∧
      net.mWOut = matOfFn params.outputCount params.neuronCount (fun _ _ => A.zero) := by
  unfold NetworkNSLI.create
  rw [h]
  exact ⟨_, rfl, rfl, rfl, rfl, rfl, rfl, rfl, rfl, rfl, rfl, rfl, rfl⟩

theorem map_range_const {α : Type} (n : Nat) (f : Nat → α) (c : α) (h : ∀ i, f i = c) :
    (List.range n).map f = List.replicate n c := by
  apply List.ext_getElem
  · simp
  · intro i h1 h2
    simp [h]

theorem getD_mem {α : Type} (l : List α) (i : Nat) (d : α) (h : i < l.length) :
    l.getD i d ∈ l := by
  rw [List.getD_eq_getElem?_getD, List.getElem?_eq_getElem h]
  exact List.getElem_mem h

theorem getD_set_ne {α : Type} (l : List α) (i j : Nat) (a d : α) (h : j ≠ i) :
    (l.set j a).getD i d = l.getD i d := by
  simp [List.getD_eq_getElem?_getD, List.getElem?_set_ne h]

theorem getD_set_self {α : Type} (l : List α) (i : Nat) (a d : α) (h : i < l.length) :
    (l.set i a).getD i d = a := by
  simp [List.getD_eq_getElem?_getD, List.getElem?_set_self, h]

theorem filterTrain_ok (A : Arith F) (f : AdaptiveFilterRLS F) (w : Vec F) (p t : F)
    (x : Vec F) (hx : x.length = f.mP.length) (hw : w.length = f.mP.length) :
    (f.Train A w p t x).err = none ∧ (f.Train A w p t x).w.length = f.mP.length ∧
    (f.Train A w p t x).filter.mP.length = f.mP.length := by
  unfold AdaptiveFilterRLS.Train
  simp [hx, hw, matVec]

theorem filterCall_ok (A : Arith F) (net : NetworkNSLI F) (k : Nat) (v : F)
    (hk : k < net.mParams.outputCount) (hwf : net.WellFormed)
    (hon : net.OnlineWellFormed) :
    (filterCall A net k v).err = none ∧
    (filterCall A net k v).w.length = net.mParams.neuronCount ∧
    (filterCall A net k v).filter.mP.length = net.mParams.neuronCount := by
  obtain ⟨-, -, -, -, hX, -, -, -, -, -, -, hWO, hAF, -⟩ := hwf
  obtain ⟨hrows, hfil⟩ := hon
  have hw : (net.mWOut.getD k []).length = net.mParams.neuronCount :=
    hrows _ (getD_mem _ _ _ (by rw [hWO]; exact hk))
  have hf : ((net.mAdaptiveFilter.getD k ⟨A.zero, []⟩).mP).length =
      net.mParams.neuronCount :=
    hfil _ (getD_mem _ _ _ (by rw [hAF]; exact hk))
  unfold filterCall
  simp only []
  split_ifs
  · have := filterTrain_ok A (net.mAdaptiveFilter.getD k ⟨A.zero, []⟩) (net.mWOut.getD k [])
      (A.atanh (net.mOut.getD k A.zero)) (A.atanh v) net.mX (by rw [hX, hf]) (by rw [hw, hf])
    rw [hf] at this
    exact this
  · have := filterTrain_ok A (net.mAdaptiveFilter.getD k ⟨A.zero, []⟩) (net.mWOut.getD k [])
      (net.mOut.getD k A.zero) v net.mX (by rw [hX, hf]) (by rw [hw, hf])
    rw [hf] at this
    exact this

theorem TrainSingleOutputOnline_eq (A : Arith F) (net : NetworkNSLI F) (k : Nat) (value : F)
    (force : Bool) (hk : k < net.mParams.outputCount) (hwf : net.WellFormed)
    (hon : net.OnlineWellFormed) :
    TrainSingleOutputOnline A net k value force =
      ⟨none, { net with
        mAdaptiveFilter := net.mAdaptiveFilter.set k
          (filterCall A net k (denormalize A net k value)).filter
        mWOut := net.mWOut.set k (filterCall A net k (denormalize A net k value)).w
        mOut := if force then net.mOut.set k (denormalize A net k value) else net.mOut }⟩ := by
  obtain ⟨he, -, -⟩ := filterCall_ok A net k (denormalize A net k value) hk hwf hon
  unfold TrainSingleOutputOnline
  simp only [he]

theorem TrainSingleOutputOnline_wellFormed (A : Arith F) (net : NetworkNSLI F) (k : Nat)
    (value : F) (force : Bool) (hk : k < net.mParams.outputCount) (hwf : net.WellFormed)
    (hon : net.OnlineWellFormed) :
    (TrainSingleOutputOnline A net k value force).net.WellFormed ∧
    (TrainSingleOutputOnline A net k value force).net.OnlineWellFormed := by
  obtain ⟨-, hwl, hfl⟩ := filterCall_ok A net k (denormalize A net k value) hk hwf hon
  rw [TrainSingleOutputOnline_eq A net k value force hk hwf hon]
  obtain ⟨h1, h2, h3, h4, h5, h6, h7, h8, h9, h10, h11, h12, h13, h14⟩ := hwf
  obtain ⟨hrows, hfil⟩ := hon
  refine ⟨⟨h1, h2, h3, h4, h5, h6, h7, h8, ?_, h10, h11, ?_, ?_, h14⟩, ?_, ?_⟩
  · show (if force = true then net.mOut.set k (denormalize A net k value)
      else net.mOut).length = _
    split_ifs <;> simp [h9]
  · simp [h12]
  · simp [h13]
  · intro r hr
    rcases List.mem_or_eq_of_mem_set hr with h | h
    · exact hrows r h
    · rw [h]; exact hwl
  · intro f hf
    rcases List.mem_or_eq_of_mem_set hf with h | h
    · exact hfil f h
    · rw [h]; exact hfl

theorem TrainSingleOutputOnline_frame (A : Arith F) (net : NetworkNSLI F) (k : Nat)
    (value : F) (force : Bool) (hk : k < net.mParams.outputCount) (hwf : net.WellFormed)
    (hon : net.OnlineWellFormed) :
    (TrainSingleOutputOnline A net k value force).err = none ∧
    (TrainSingleOutputOnline A net k value force).net.mParams = net.mParams ∧
    (TrainSingleOutputOnline A net k value force).net.mX = net.mX ∧
    (TrainSingleOutputOnline A net k value force).net.mIn = net.mIn ∧
    (TrainSingleOutputOnline A net k value force).net.mOutScale = net.mOutScale ∧
    (TrainSingleOutputOnline A net k value force).net.mOutBias = net.mOutBias ∧
    (∀ i, i ≠ k →
      (TrainSingleOutputOnline A net k value force).net.mWOut.getD i [] =
        net.mWOut.getD i [] ∧
      (TrainSingleOutputOnline A net k value force).net.mOut.getD i A.zero =
        net.mOut.getD i A.zero ∧
      (TrainSingleOutputOnline A net k value force).net.mAdaptiveFilter.getD i ⟨A.zero, []⟩ =
        net.mAdaptiveFilter.getD i ⟨A.zero, []⟩) ∧
    (TrainSingleOutputOnline A net k value force).net.mWOut.getD k [] =
      (filterCall A net k (denormalize A net k value)).w ∧
    (force = true → (TrainSingleOutputOnline A net k value force).net.mOut =
      net.mOut.set k (denormalize A net k value)) ∧
    (force = false → (TrainSingleOutputOnline A net k value force).net.mOut = net.mOut) := by
  rw [TrainSingleOutputOnline_eq A net k value force hk hwf hon]
  obtain ⟨-, -, -, -, -, -, -, -, -, -, -, hWO, -, -⟩ := hwf
  refine ⟨rfl, rfl, rfl, rfl, rfl, rfl, ?_, ?_, ?_, ?_⟩
  · intro i hi
    refine ⟨getD_set_ne _ _ _ _ _ (Ne.symm hi), ?_, getD_set_ne _ _ _ _ _ (Ne.symm hi)⟩
    show (if force = true then net.mOut.set k (denormalize A net k value)
      else net.mOut).getD i A.zero = _
    split_ifs
    · exact getD_set_ne _ _ _ _ _ (Ne.symm hi)
    · rfl
  · exact getD_set_self _ _ _ _ (by rw [hWO]; exact hk)
  · intro hf
    simp [hf]
  · intro hf
    simp [hf]

theorem denormalize_congr (A : Arith F) (n1 n2 : NetworkNSLI F) (i : Nat) (v : F)
    (hb : n1.mOutBias = n2.mOutBias) (hs : n1.mOutScale = n2.mOutScale) :
    denormalize A n1 i v = denormalize A n2 i v := by
  simp [denormalize, hb, hs]

theorem filterCall_congr (A : Arith F) (n1 n2 : NetworkNSLI F) (i : Nat) (v : F)
    (hp : n1.mParams = n2.mParams) (hx : n1.mX = n2.mX)
    (hw : n1.mWOut.getD i [] = n2.mWOut.getD i [])
    (ho : n1.mOut.getD i A.zero = n2.mOut.getD i A.zero)
    (hf : n1.mAdaptiveFilter.getD i ⟨A.zero, []⟩ = n2.mAdaptiveFilter.getD i ⟨A.zero, []⟩) :
    filterCall A n1 i v = filterCall A n2 i v := by
  unfold filterCall
  rw [hp, hx, hw, ho, hf]

theorem TrainOnlineLoop_spec (A : Arith F) (output : Vec F) (force : Bool) :
    ∀ (is : List Nat) (net : NetworkNSLI F), net.WellFormed → net.OnlineWellFormed →
      (∀ i ∈ is, i < net.mParams.outputCount) →
      (TrainOnlineLoop A is net output force).err = none ∧
      (TrainOnlineLoop A is net output force).net.WellFormed ∧
      (TrainOnlineLoop A is net output force).net.OnlineWellFormed ∧
      (TrainOnlineLoop A is net output force).net.mParams = net.mParams ∧
      (TrainOnlineLoop A is net output force).net.mX = net.mX ∧
      (TrainOnlineLoop A is net output force).net.mIn = net.mIn ∧
      (TrainOnlineLoop A is net output force).net.mOutScale = net.mOutScale ∧
      (TrainOnlineLoop A is net output force).net.mOutBias = net.mOutBias ∧
      (∀ i, i ∉ is →
        (TrainOnlineLoop A is net output force).net.mWOut.getD i [] = net.mWOut.getD i [] ∧
        (TrainOnlineLoop A is net output force).net.mOut.getD i A.zero =
          net.mOut.getD i A.zero ∧
        (TrainOnlineLoop A is net output force).net.mAdaptiveFilter.getD i ⟨A.zero, []⟩ =
          net.mAdaptiveFilter.getD i ⟨A.zero, []⟩) ∧
      (force = true → ∀ i ∈ is,
        (TrainOnlineLoop A is net output force).net.mOut.getD i A.zero =
          denormalize A net i (output.getD i A.zero)) ∧
      (is.Nodup → ∀ i ∈ is,
        (TrainOnlineLoop A is net output force).net.mWOut.getD i [] =
          (filterCall A net i (denormalize A net i (output.getD i A.zero))).w) := by
  intro is
  induction is with
  | nil =>
    intro net hwf hon _
    simp [TrainOnlineLoop, hwf, hon]
  | cons j rest ih =>
    intro net hwf hon hlt
    have hj : j < net.mParams.outputCount := hlt j (List.mem_cons_self _ _)
    obtain ⟨e1, p1, x1, i1, s1, b1, o1, w1, f1, -⟩ :=
      TrainSingleOutputOnline_frame A net j (output.getD j A.zero) force hj hwf hon
    obtain ⟨wf1, on1⟩ :=
      TrainSingleOutputOnline_wellFormed A net j (output.getD j A.zero) force hj hwf hon
    have hloop : TrainOnlineLoop A (j :: rest) net output force =
        TrainOnlineLoop A rest (TrainSingleOutputOnline A net j (output.getD j A.zero) force).net
          output force := by
      rw [TrainOnlineLoop]
      have : TrainSingleOutputOnline A net j (output.getD j A.zero) force =
          ⟨none, (TrainSingleOutputOnline A net j (output.getD j A.zero) force).net⟩ := by
        rw [← e1]
      rw [this]
    rw [hloop]
    obtain ⟨e2, wf2, on2, p2, x2, i2, s2, b2, o2, m2, r2⟩ :=
      ih (TrainSingleOutputOnline A net j (output.getD j A.zero) force).net wf1 on1
        (by rw [p1]; exact fun i hi => hlt i (List.mem_cons_of_mem _ hi))
    have hout_j : force = true →
        (TrainSingleOutputOnline A net j (output.getD j A.zero) force).net.mOut.getD j A.zero =
          denormalize A net j (output.getD j A.zero) := by
      intro hf
      rw [f1 hf]
      exact getD_set_self _ _ _ _ (by rw [hwf.2.2.2.2.2.2.2.2.1]; exact hj)
    refine ⟨e2, wf2, on2, p2.trans p1, x2.trans x1, i2.trans i1, s2.trans s1, b2.trans b1,
      ?_, ?_, ?_⟩
    · intro i hi
      have hij : i ≠ j := fun h => hi (by rw [h]; exact List.mem_cons_self _ _)
      have hir : i ∉ rest := fun h => hi (List.mem_cons_of_mem _ h)
      obtain ⟨a1, a2, a3⟩ := o2 i hir
      obtain ⟨c1, c2, c3⟩ := o1 i hij
      exact ⟨a1.trans c1, a2.trans c2, a3.trans c3⟩
    · intro hf i hi
      by_cases hir : i ∈ rest
      · rw [m2 hf i hir]
        exact denormalize_congr A _ _ _ _ b1 s1
      · have hij : i = j := by
          rcases List.mem_cons.mp hi with h | h
          · exact h
          · exact absurd h hir
        subst hij
        rw [(o2 i hir).2.1]
        exact hout_j hf
    · intro hnd i hi
      have hjr : j ∉ rest := (List.nodup_cons.mp hnd).1
      by_cases hir : i ∈ rest
      · have hij : i ≠ j := fun h => hjr (by rw [← h]; exact hir)
        obtain ⟨c1, c2, c3⟩ := o1 i hij
        rw [r2 (List.nodup_cons.mp hnd).2 i hir,
          denormalize_congr A _ net i _ b1 s1,
          filterCall_congr A _ net i _ p1 x1 c1 c2 c3]
      · have hij : i = j := by
          rcases List.mem_cons.mp hi with h | h
          · exact h
          · exact absurd h hir
        subst hij
        rw [(o2 i hir).1]
        exact w1

theorem fieldArith_zeroLaws (K : Type) [LinearOrderedField K] (tanh atanh : K → K)
    (h : tanh 0 = 0) : (fieldArith K tanh atanh).ZeroLaws where
  add_zero_zero := by simp [fieldArith]
  zero_mul := by intro x _; simp [fieldArith]
  isfinite_zero := rfl
  isfinite_one := rfl
  tanh_zero := h

theorem nanArith_zeroLaws (K : Type) [LinearOrderedField K] (tanh atanh : K → K)
    (h : tanh 0 = 0) : (nanArith K tanh atanh).ZeroLaws where
  add_zero_zero := by simp [nanArith]
  zero_mul := by
    intro x hx
    cases x with
    | none => simp [nanArith] at hx
    | some y => simp [nanArith]
  isfinite_zero := rfl
  isfinite_one := rfl
  tanh_zero := by simp [nanArith, h]

theorem ratArith_zeroLaws : ratArith.ZeroLaws :=
  fieldArith_zeroLaws ℚ softsign softsign (by simp [softsign])

theorem foldl_add_zeros (A : Arith F) (hZ : A.ZeroLaws) :
    ∀ l : List F, (∀ e ∈ l, e = A.zero) → l.foldl A.add A.zero = A.zero := by
  intro l
  induction l with
  | nil => intro _; rfl
  | cons a l ih =>
    intro h
    rw [List.foldl_cons, h a (List.mem_cons_self _ _), hZ.add_zero_zero]
    exact ih (fun e he => h e (List.mem_cons_of_mem _ he))

theorem zipWith_mul_zeros (A : Arith F) (hZ : A.ZeroLaws) :
    ∀ (r v : List F), (∀ e ∈ r, e = A.zero) → (∀ x ∈ v, A.isfinite x = true) →
      ∀ e ∈ List.zipWith A.mul r v, e = A.zero := by
  intro r
  induction r with
  | nil => intro v _ _ e he; simp at he
  | cons a r ih =>
    intro v hr hv e he
    cases v with
    | nil => simp at he
    | cons b v =>
      rw [List.zipWith_cons_cons, List.mem_cons] at he
      rcases he with he | he
      · rw [he, hr a (List.mem_cons_self _ _)]
        exact hZ.zero_mul b (hv b (List.mem_cons_self _ _))
      · exact ih v (fun e he => hr e (List.mem_cons_of_mem _ he))
          (fun x hx => hv x (List.mem_cons_of_mem _ hx)) e he

theorem dot_zeros (A : Arith F) (hZ : A.ZeroLaws) (r v : List F)
    (hr : ∀ e ∈ r, e = A.zero) (hv : ∀ x ∈ v, A.isfinite x = true) :
    dot A r v = A.zero :=
  foldl_add_zeros A hZ _ (zipWith_mul_zeros A hZ r v hr hv)

theorem getD_isfinite (A : Arith F) (hZ : A.ZeroLaws) (l : List F) (i : Nat)
    (h : ∀ x ∈ l, A.isfinite x = true) : A.isfinite (l.getD i A.zero) = true := by
  by_cases hi : i < l.length
  · exact h _ (getD_mem l i A.zero hi)
  · rw [List.getD_eq_default _ _ (Nat.le_of_not_lt hi)]
    exact hZ.isfinite_zero

theorem getD_zero (A : Arith F) (l : List F) (i : Nat) (h : ∀ x ∈ l, x = A.zero) :
    l.getD i A.zero = A.zero := by
  by_cases hi : i < l.length
  · exact h _ (getD_mem l i A.zero hi)
  · exact List.getD_eq_default _ _ (Nat.le_of_not_lt hi)

theorem column_isfinite (A : Arith F) (hZ : A.ZeroLaws) (M : Mat F) (j : Nat)
    (h : ∀ r ∈ M, ∀ e ∈ r, A.isfinite e = true) :
    ∀ x ∈ column A M j, A.isfinite x = true := by
  intro x hx
  simp only [column, List.mem_map] at hx
  obtain ⟨r, hr, rfl⟩ := hx
  exact getD_isfinite A hZ r j (h r hr)

theorem ofColumns_isfinite (A : Arith F) (hZ : A.ZeroLaws) (n : Nat) (cs : List (Vec F))
    (h : ∀ c ∈ cs, ∀ x ∈ c, A.isfinite x = true) :
    ∀ r ∈ ofColumns A n cs, ∀ e ∈ r, A.isfinite e = true := by
  intro r hr e he
  simp only [ofColumns, List.mem_map] at hr
  obtain ⟨i, -, rfl⟩ := hr
  simp only [List.mem_map] at he
  obtain ⟨c, hc, rfl⟩ := he
  exact getD_isfinite A hZ c i (h c hc)

theorem transpose_isfinite (A : Arith F) (hZ : A.ZeroLaws) (k : Nat) (M : Mat F)
    (h : ∀ r ∈ M, ∀ e ∈ r, A.isfinite e = true) :
    ∀ r ∈ transpose A k M, ∀ e ∈ r, A.isfinite e = true := by
  intro r hr
  simp only [transpose, List.mem_map] at hr
  obtain ⟨j, -, rfl⟩ := hr
  exact column_isfinite A hZ M j h

theorem matMul_zero_left (A : Arith F) (hZ : A.ZeroLaws) (n : Nat) (M N : Mat F)
    (hM : ∀ r ∈ M, ∀ e ∈ r, e = A.zero)
    (hN : ∀ r ∈ N, ∀ e ∈ r, A.isfinite e = true) :
    matMul A n M N = M.map (fun _ => (List.range n).map (fun _ => A.zero)) := by
  unfold matMul
  apply List.map_congr_left
  intro r hr
  apply List.map_congr_left
  intro j _
  exact dot_zeros A hZ r _ (hM r hr) (column_isfinite A hZ N j hN)

theorem readout_zero (A : Arith F) (hZ : A.ZeroLaws) (L : LinAlg F) (n m k : Nat)
    (xs ys : List (Vec F)) (hys : ∀ v ∈ ys, ∀ e ∈ v, e = A.zero)
    (hxs : ∀ c ∈ xs, ∀ x ∈ c, A.isfinite x = true)
    (hinv : ∀ r ∈ L.inverse (matMul A n (ofColumns A n xs)
      (transpose A k (ofColumns A n xs))), ∀ e ∈ r, A.isfinite e = true) :
    readout A L n m k xs ys = matOfFn m n (fun _ _ => A.zero) := by
  have hY : ∀ r ∈ ofColumns A m ys, ∀ e ∈ r, e = A.zero := by
    intro r hr e he
    simp only [ofColumns, List.mem_map] at hr
    obtain ⟨i, -, rfl⟩ := hr
    simp only [List.mem_map] at he
    obtain ⟨c, hc, rfl⟩ := he
    exact getD_zero A c i (hys c hc)
  have h1 := matMul_zero_left A hZ n (ofColumns A m ys)
    (transpose A k (ofColumns A n xs)) hY
    (transpose_isfinite A hZ k _ (ofColumns_isfinite A hZ n xs hxs))
  unfold readout
  simp only []
  rw [h1, matMul_zero_left A hZ n _ _ _ hinv]
  · simp only [ofColumns, matOfFn, List.map_map]
    apply List.map_congr_left
    intro i _
    rfl
  · intro r hr e he
    simp only [List.mem_map] at hr
    obtain ⟨_, -, rfl⟩ := hr
    simp only [List.mem_map] at he
    obtain ⟨_, -, rfl⟩ := he
    rfl

theorem foldl_advance_params (A : Arith F) :
    ∀ (ins : List (Vec F)) (n : NetworkNSLI F),
      n.mIn.length = n.mParams.inputCount → n.mWInBias.length = n.mParams.inputCount →
      n.mWInScaling.length = n.mParams.inputCount →
      (∀ v ∈ ins, v.length = n.mParams.inputCount) →
      (ins.foldl (advance A) n).mParams = n.mParams := by
  intro ins
  induction ins with
  | nil => intro n _ _ _ _; rfl
  | cons inp ins ih =>
    intro n a b c d
    obtain ⟨f1, f2, f3, f4⟩ := advance_frame A n inp (d inp (List.mem_cons_self _ _)) a b c
    rw [List.foldl_cons, ih (advance A n inp) (by rw [f1]; exact f2) (by rw [f1]; exact f3)
      (by rw [f1]; exact f4) (by rw [f1]; exact fun v hv => d v (List.mem_cons_of_mem _ hv)), f1]

theorem Train_eq (A : Arith F) (hA : A.Ordered) (L : LinAlg F) (net : NetworkNSLI F)
    (inputs outputs : List (Vec F)) (hwf : net.WellFormed) (hne : inputs ≠ [])
    (hlen : inputs.length = outputs.length)
    (hin : ∀ v ∈ inputs, v.length = net.mParams.inputCount)
    (hout : ∀ v ∈ outputs, v.length = net.mParams.outputCount)
    (hfin : ∀ n ∈ trajectory A net inputs, ∀ o ∈ n.mOut, A.isfinite o = true) :
    Train A L net inputs outputs =
      ⟨none, { inputs.foldl (advance A) net with
        mWOut := readout A L net.mParams.neuronCount net.mParams.outputCount inputs.length
          ((trajectory A net inputs).map (fun n => n.mX)) outputs }⟩ := by
  obtain ⟨h1, h2, h3, -⟩ := hwf
  have hloop := TrainLoop_eq A hA inputs net outputs [] [] h1 h3 h2 hin hlen hout hfin
  have hp := foldl_advance_params A inputs net h1 h3 h2 hin
  have hl0 : inputs.length ≠ 0 := fun h => hne (List.length_eq_zero.mp h)
  unfold Train
  rw [if_neg hl0, if_neg (by simpa using hlen), hloop]
  simp [hp]

theorem StepUpdate_out_frame (A : Arith F) (net : NetworkNSLI F) :
    (StepUpdate A net).mOut =
      (if net.mParams.linearOutput then matVec A net.mWOut (StepUpdate A net).mX
       else unaryExpr A.tanh (matVec A net.mWOut (StepUpdate A net).mX)) ∧
    (StepUpdate A net).mOutScale = net.mOutScale ∧
    (StepUpdate A net).mOutBias = net.mOutBias := by
  unfold StepUpdate
  split_ifs <;> exact ⟨rfl, rfl, rfl⟩

theorem create_onlineWellFormed (A : Arith F) (L : LinAlg F) (rnd : RandomDraws F)
    (params : NetworkParamsNSLI F) (net : NetworkNSLI F)
    (h : NetworkNSLI.create A L rnd params = .ok net) : net.OnlineWellFormed := by
  unfold NetworkNSLI.create at h
  by_cases hr : paramsRejected A params = true
  · rw [if_pos hr] at h
    cases h
  · rw [if_neg hr] at h
    injection h with h
    subst h
    constructor
    · intro r hr
      simp only [matOfFn, List.mem_map] at hr
      obtain ⟨_, -, rfl⟩ := hr
      simp
    · intro f hf
      simp only [vecOfFn, List.mem_map] at hf
      obtain ⟨_, -, rfl⟩ := hf
      simp [AdaptiveFilterRLS.create, matOfFn]

theorem StepUpdate_frame2 (A : Arith F) (net : NetworkNSLI F) :
    (StepUpdate A net).mWIn = net.mWIn ∧ (StepUpdate A net).mW = net.mW ∧
    (StepUpdate A net).mLeakingRate = net.mLeakingRate ∧
    (StepUpdate A net).mOneMinusLeakingRate = net.mOneMinusLeakingRate := by
  unfold StepUpdate
  split_ifs <;> exact ⟨rfl, rfl, rfl, rfl⟩

theorem SetInputs_net (A : Arith F) (net : NetworkNSLI F) (raw : Vec F) :
    (SetInputs A net raw).net = { net with mIn :=
      (if raw.length ≠ net.mIn.length then net.mIn
        else cwiseProduct A (vadd A raw net.mWInBias) net.mWInScaling) } := by
  unfold SetInputs
  split_ifs <;> rfl

theorem StepUpdate_mX_calc (A : Arith F) (net : NetworkNSLI F) :
    ∃ val, (StepUpdate A net).mX = CALC_X A net val := by
  unfold StepUpdate CALC_X_WITH_FB
  split_ifs <;> exact ⟨_, rfl⟩

theorem TrainSingleOutputOnline_state_frame (A : Arith F) (net : NetworkNSLI F) (k : Nat)
    (value : F) (force : Bool) :
    (TrainSingleOutputOnline A net k value force).net.mX = net.mX ∧
    (TrainSingleOutputOnline A net k value force).net.mLeakingRate = net.mLeakingRate ∧
    (TrainSingleOutputOnline A net k value force).net.mOneMinusLeakingRate =
      net.mOneMinusLeakingRate := by
  cases h : (filterCall A net k (denormalize A net k value)).err <;>
    simp [TrainSingleOutputOnline, h]

theorem TrainOnlineLoop_state_frame (A : Arith F) (output : Vec F) (force : Bool) :
    ∀ (is : List Nat) (net : NetworkNSLI F),
      (TrainOnlineLoop A is net output force).net.mX = net.mX ∧
      (TrainOnlineLoop A is net output force).net.mLeakingRate = net.mLeakingRate ∧
      (TrainOnlineLoop A is net output force).net.mOneMinusLeakingRate =
        net.mOneMinusLeakingRate := by
  intro is
  induction is with
  | nil => intro net; exact ⟨rfl, rfl, rfl⟩
  | cons i rest ih =>
    intro net
    obtain ⟨h1, h2, h3⟩ := TrainSingleOutputOnline_state_frame A net i (output.getD i A.zero) force
    unfold TrainOnlineLoop
    cases hr : TrainSingleOutputOnline A net i (output.getD i A.zero) force with
    | mk e net1 =>
      rw [hr] at h1 h2 h3
      cases e with
      | some e => exact ⟨h1, h2, h3⟩
      | none =>
        obtain ⟨g1, g2, g3⟩ := ih net1
        exact ⟨g1.trans h1, g2.trans h2, g3.trans h3⟩

end Lemmas

section Bridge
open scoped Pointwise
variable {K : Type} [LinearOrderedField K]

theorem paramsRejected_fieldArith (tanh atanh : K → K) (params : NetworkParamsNSLI K)
    (h : paramsRejected (fieldArith K tanh atanh) params = false) :
    0 < params.leakingRateMin ∧ params.leakingRateMin ≤ 1 ∧
    0 < params.leakingRateMax ∧ params.leakingRateMax ≤ 1 ∧
    params.leakingRateMin ≤ params.leakingRateMax := by
  unfold paramsRejected at h
  simp only [fieldArith, Nat.le_zero_eq] at h
  split_ifs at h with h1 h2 h3 h4 h5 h6 h7
  simp only [Bool.not_eq_true', Bool.and_eq_false_imp, decide_eq_true_eq,
    decide_eq_false_iff_not, not_lt, not_le, Classical.not_imp, not_not] at h4 h5 h6
  exact ⟨h4.1, h4.2, h5.1, h5.2, h6⟩

theorem abs_tanh_le_one (x : ℝ) : |Real.tanh x| ≤ 1 := by
  rw [Real.tanh_eq_sinh_div_cosh, abs_div, abs_of_pos (Real.cosh_pos x),
    div_le_one (Real.cosh_pos x)]
  have h := Real.cosh_sq x
  have hc := Real.cosh_pos x
  apply abs_le_of_sq_le_sq _ hc.le
  rw [h]
  linarith

theorem RoundingLaws.zero {rnd : K → K} (h : RoundingLaws rnd) : rnd 0 = 0 := by
  have := h.odd 0
  rw [neg_zero] at this
  linarith

theorem rounded_leaky_bound (rnd : K → K) (hl : RoundingLaws rnd) (c x t b : K)
    (hc : 0 ≤ c) (hx : |x| ≤ b) (ht : |t| ≤ 1) (hcl : rnd (rnd (c * b) + 1) ≤ b) :
    |rnd (rnd (c * x) + t)| ≤ b := by
  obtain ⟨hx1, hx2⟩ := abs_le.mp hx
  obtain ⟨ht1, ht2⟩ := abs_le.mp ht
  have hu : rnd (c * x) ≤ rnd (c * b) := hl.mono _ _ (mul_le_mul_of_nonneg_left hx2 hc)
  have hd : -rnd (c * b) ≤ rnd (c * x) := by
    have := hl.mono (-(c * b)) (c * x) (by nlinarith)
    rwa [hl.odd] at this
  have h1 : rnd (rnd (c * x) + t) ≤ rnd (rnd (c * b) + 1) := hl.mono _ _ (by linarith)
  have h2 : -rnd (rnd (c * b) + 1) ≤ rnd (rnd (c * x) + t) := by
    have := hl.mono (-(rnd (c * b) + 1)) (rnd (c * x) + t) (by linarith)
    rwa [hl.odd] at this
  exact abs_le.mpr ⟨by linarith, by linarith⟩

theorem CALC_X_boundedBy (rnd tanh atanh : K → K) (hl : RoundingLaws rnd)
    (htanh : ∀ x, |tanh x| ≤ 1) (net : NetworkNSLI (Option K)) (val : Vec (Option K))
    (B : List K) (hadm : Admissible rnd B net) (hb : StateBoundedBy B net) :
    ∀ (i : Nat) (a b : K), (CALC_X (floatArith K rnd tanh atanh) net val)[i]? = some (some a) →
      B[i]? = some b → |a| ≤ b := by
  intro i a b ha hB
  unfold CALC_X vadd cwiseProduct unaryExpr at ha
  rw [List.getElem?_zipWith_eq_some] at ha
  obtain ⟨p, q, hp, hq, hpq⟩ := ha
  rw [List.getElem?_zipWith_eq_some] at hp
  obtain ⟨o, x, ho, hx, hox⟩ := hp
  rw [List.getElem?_map] at hq
  cases hz : (List.zipWith (floatArith K rnd tanh atanh).mul net.mLeakingRate val)[i]? with
  | none => rw [hz] at hq; simp at hq
  | some z =>
    rw [hz] at hq
    simp only [Option.map_some', Option.some.injEq] at hq
    subst hq hox
    cases o with
    | none => simp [floatArith] at hpq
    | some c =>
      cases x with
      | none => simp [floatArith] at hpq
      | some x' =>
        cases z with
        | none => simp [floatArith] at hpq
        | some z' =>
          simp only [floatArith, Option.map_some', Option.some.injEq] at hpq
          rw [← hpq]
          obtain ⟨-, hcb⟩ := hadm i b hB
          obtain ⟨hc0, hcl⟩ := hcb c ho
          exact rounded_leaky_bound rnd hl c x' (tanh z') b hc0 (hb i x' b hx hB) (htanh z') hcl

theorem boundedBy_of_frame (rnd : K → K) (B : List K) (n1 n2 : NetworkNSLI (Option K))
    (hx : n2.mX = n1.mX) (ho : n2.mOneMinusLeakingRate = n1.mOneMinusLeakingRate)
    (h : Admissible rnd B n1 ∧ StateBoundedBy B n1) :
    Admissible rnd B n2 ∧ StateBoundedBy B n2 := by
  obtain ⟨h1, h2⟩ := h
  constructor
  · intro i b hB
    obtain ⟨a1, a2⟩ := h1 i b hB
    refine ⟨a1, fun c hc => a2 c ?_⟩
    rw [ho] at hc
    exact hc
  · intro i a b ha hB
    rw [hx] at ha
    exact h2 i a b ha hB

theorem StepUpdate_boundedBy (rnd tanh atanh : K → K) (hl : RoundingLaws rnd)
    (htanh : ∀ x, |tanh x| ≤ 1) (net : NetworkNSLI (Option K)) (B : List K)
    (h : Admissible rnd B net ∧ StateBoundedBy B net) :
    Admissible rnd B (StepUpdate (floatArith K rnd tanh atanh) net) ∧
      StateBoundedBy B (StepUpdate (floatArith K rnd tanh atanh) net) := by
  obtain ⟨h1, h2⟩ := h
  obtain ⟨-, -, -, f4⟩ := StepUpdate_frame2 (floatArith K rnd tanh atanh) net
  obtain ⟨val, hval⟩ := StepUpdate_mX_calc (floatArith K rnd tanh atanh) net
  constructor
  · intro i b hB
    obtain ⟨a1, a2⟩ := h1 i b hB
    refine ⟨a1, fun c hc => a2 c ?_⟩
    rw [f4] at hc
    exact hc
  · intro i a b ha hB
    rw [hval] at ha
    exact CALC_X_boundedBy rnd tanh atanh hl htanh net val B h1 h2 i a b ha hB

theorem Step_boundedBy (rnd tanh atanh : K → K) (hl : RoundingLaws rnd)
    (htanh : ∀ x, |tanh x| ≤ 1) (net : NetworkNSLI (Option K)) (B : List K)
    (step : Option K) (h : Admissible rnd B net ∧ StateBoundedBy B net) :
    Admissible rnd B (Step (floatArith K rnd tanh atanh) net step).net ∧
      StateBoundedBy B (Step (floatArith K rnd tanh atanh) net step).net := by
  cases hg : (floatArith K rnd tanh atanh).le step (floatArith K rnd tanh atanh).zero
  · rw [Step_net _ net step hg]
    exact StepUpdate_boundedBy rnd tanh atanh hl htanh net B h
  · simpa [Step, hg] using h

theorem SetInputs_boundedBy (rnd tanh atanh : K → K) (net : NetworkNSLI (Option K))
    (B : List K) (raw : Vec (Option K)) (h : Admissible rnd B net ∧ StateBoundedBy B net) :
    Admissible rnd B (SetInputs (floatArith K rnd tanh atanh) net raw).net ∧
      StateBoundedBy B (SetInputs (floatArith K rnd tanh atanh) net raw).net := by
  rw [SetInputs_net]
  exact boundedBy_of_frame rnd B net _ rfl rfl h

theorem TrainLoop_boundedBy (rnd tanh atanh : K → K) (hl : RoundingLaws rnd)
    (htanh : ∀ x, |tanh x| ≤ 1) (B : List K) :
    ∀ (ins : List (Vec (Option K))) (net : NetworkNSLI (Option K))
      (outs xs ys : List (Vec (Option K))),
      Admissible rnd B net ∧ StateBoundedBy B net →
      Admissible rnd B (TrainLoop (floatArith K rnd tanh atanh) net ins outs xs ys).net ∧
        StateBoundedBy B (TrainLoop (floatArith K rnd tanh atanh) net ins outs xs ys).net := by
  intro ins
  induction ins with
  | nil => intro net outs xs ys h; simpa [TrainLoop] using h
  | cons inp ins ih =>
    intro net outs xs ys h
    have hs := SetInputs_boundedBy rnd tanh atanh net B inp h
    unfold TrainLoop
    cases hr : SetInputs (floatArith K rnd tanh atanh) net inp with
    | mk e net1 =>
      rw [hr] at hs
      cases e with
      | some e => exact hs
      | none =>
        have ht := Step_boundedBy rnd tanh atanh hl htanh net1 B
          (floatArith K rnd tanh atanh).tenth hs
        dsimp only
        cases hr2 : Step (floatArith K rnd tanh atanh) net1
            (floatArith K rnd tanh atanh).tenth with
        | mk e2 net2 =>
          rw [hr2] at ht
          cases e2 with
          | some e => exact ht
          | none => exact ih net2 _ _ _ ht

theorem Train_boundedBy (rnd tanh atanh : K → K) (hl : RoundingLaws rnd)
    (htanh : ∀ x, |tanh x| ≤ 1) (B : List K) (L : LinAlg (Option K))
    (net : NetworkNSLI (Option K)) (inputs outputs : List (Vec (Option K)))
    (h : Admissible rnd B net ∧ StateBoundedBy B net) :
    Admissible rnd B (Train (floatArith K rnd tanh atanh) L net inputs outputs).net ∧
      StateBoundedBy B (Train (floatArith K rnd tanh atanh) L net inputs outputs).net := by
  have hloop := TrainLoop_boundedBy rnd tanh atanh hl htanh B inputs net outputs [] [] h
  unfold Train
  split_ifs
  · exact h
  · exact h
  · cases hr : TrainLoop (floatArith K rnd tanh atanh) net inputs outputs [] [] with
    | mk e net1 xs ys =>
      rw [hr] at hloop
      cases e with
      | some e => exact hloop
      | none => exact boundedBy_of_frame rnd B net1 _ rfl rfl hloop

theorem runCalls_boundedBy (rnd tanh atanh : K → K) (hl : RoundingLaws rnd)
    (htanh : ∀ x, |tanh x| ≤ 1) (B : List K) (L : LinAlg (Option K)) :
    ∀ (calls : List (Call (Option K))) (net : NetworkNSLI (Option K)),
      Admissible rnd B net ∧ StateBoundedBy B net →
      Admissible rnd B (runCalls (floatArith K rnd tanh atanh) L net calls) ∧
        StateBoundedBy B (runCalls (floatArith K rnd tanh atanh) L net calls) := by
  intro calls
  induction calls with
  | nil => intro net h; exact h
  | cons c rest ih =>
    intro net h
    unfold runCalls
    rw [List.foldl_cons]
    apply ih
    cases c with
    | setInputs inputs => exact SetInputs_boundedBy rnd tanh atanh net B inputs h
    | step s => exact Step_boundedBy rnd tanh atanh hl htanh net B s h
    | train inputs outputs =>
      exact Train_boundedBy rnd tanh atanh hl htanh B L net inputs outputs h
    | trainOnline output force =>
      obtain ⟨g1, -, g3⟩ := TrainOnlineLoop_state_frame (floatArith K rnd tanh atanh) output
        force (List.range net.mParams.outputCount) net
      exact boundedBy_of_frame rnd B net _ g1 g3 h

theorem create_boundedBy (rnd tanh atanh : K → K) (L : LinAlg (Option K))
    (draws : RandomDraws (Option K)) (params : NetworkParamsNSLI (Option K))
    (hvalid : paramsRejected (floatArith K rnd tanh atanh) params = false)
    (hx : ∀ (i : Nat) (a : K), draws.x i = some a → |a| ≤ 1) :
    ∃ net, NetworkNSLI.create (floatArith K rnd tanh atanh) L draws params = .ok net ∧
      ∀ B : List K, (∀ b ∈ B, 1 ≤ b) → StateBoundedBy B net := by
  unfold NetworkNSLI.create
  rw [hvalid]
  refine ⟨_, rfl, ?_⟩
  intro B hB i a b ha hb
  have hmem := List.getElem?_mem ha
  simp only [vecOfFn, List.mem_map, List.mem_range] at hmem
  obtain ⟨j, -, hj⟩ := hmem
  exact le_trans (hx j a hj) (hB b (List.getElem?_mem hb))

theorem inverse_rate_admissible (tanh atanh : K → K) (net : NetworkNSLI (Option K))
    (hcache : net.mOneMinusLeakingRate = net.mLeakingRate.map
      (fun r => (floatArith K id tanh atanh).sub (floatArith K id tanh atanh).one r))
    (hrates : RatesInUnit net) :
    Admissible id (net.mLeakingRate.map (fun r => 1 / r.getD 1)) net := by
  intro i b hB
  rw [List.getElem?_map] at hB
  cases hr : net.mLeakingRate[i]? with
  | none => rw [hr] at hB; simp at hB
  | some r =>
    rw [hr] at hB
    simp only [Option.map_some', Option.some.injEq] at hB
    obtain ⟨l, hl, hpos, hle⟩ := hrates r (List.getElem?_mem hr)
    subst hl
    simp only [Option.getD_some] at hB
    subst hB
    refine ⟨(one_le_div hpos).mpr hle, ?_⟩
    intro c hc
    rw [hcache, List.getElem?_map, hr] at hc
    simp only [floatArith, Option.map_some', Option.some.injEq, id] at hc
    subst hc
    refine ⟨sub_nonneg.mpr hle, ?_⟩
    simp only [id]
    apply le_of_eq
    field_simp

theorem floatArith_id (tanh atanh : K → K) :
    floatArith K id tanh atanh = nanArith K tanh atanh := rfl

end Bridge

section Rounding

variable {K : Type} [LinearOrderedField K] [FloorRing K]

theorem roundHalfEven_bounds (m : K) :
    (Int.floor m ≤ roundHalfEven m) ∧ (roundHalfEven m ≤ Int.floor m + 1) := by
  unfold roundHalfEven
  simp only
  split_ifs <;> constructor <;> omega

theorem roundHalfEven_intCast (z : Int) : roundHalfEven (z : K) = z := by
  unfold roundHalfEven
  simp

theorem roundHalfEven_mono {a b : K} (h : a ≤ b) : roundHalfEven a ≤ roundHalfEven b := by
  have hf : Int.floor a ≤ Int.floor b := Int.floor_mono h
  rcases lt_or_eq_of_le hf with hlt | heq
  · have h1 := (roundHalfEven_bounds a).2
    have h2 := (roundHalfEven_bounds b).1
    omega
  · unfold roundHalfEven
    simp only
    rw [← heq]
    have hr : a - (Int.floor a : K) ≤ b - (Int.floor a : K) := by linarith
    split_ifs <;> first | omega | (exfalso; linarith)

theorem roundHalfEven_eq_of_abs_lt (m : K) (k : Int) (h : |m - (k : K)| < 1 / 2) :
    roundHalfEven m = k := by
  have h1 := abs_lt.mp h
  obtain ⟨hl, hu⟩ := h1
  unfold roundHalfEven
  simp only
  by_cases hk : (k : K) ≤ m
  · have hfl : Int.floor m = k := by
      rw [Int.floor_eq_iff]
      constructor
      · exact hk
      · linarith
    rw [hfl]
    rw [if_pos hu]
  · push_neg at hk
    have hfl : Int.floor m = k - 1 := by
      rw [Int.floor_eq_iff]
      push_cast
      constructor
      · linarith
      · linarith
    rw [hfl]
    push_cast
    have h1 : ¬ (m - ((k : K) - 1) < 1 / 2) := by push_neg; linarith
    have h2 : (1 / 2 : K) < m - ((k : K) - 1) := by linarith
    rw [if_neg h1, if_pos h2]
    omega

theorem roundNearestEven_zero (p : Nat) : roundNearestEven p (0 : K) = 0 := by
  simp [roundNearestEven]

theorem roundNearestEven_pos (p : Nat) {x : K} (hx : 0 < x) :
    roundNearestEven p x =
      ((roundHalfEven (x / (2 : K) ^ (Int.log 2 x - (p : Int) + 1)) : Int) : K) *
        (2 : K) ^ (Int.log 2 x - (p : Int) + 1) := by
  unfold roundNearestEven
  rw [if_neg hx.ne', abs_of_pos hx, if_neg (not_lt.mpr hx.le)]
  simp

theorem roundNearestEven_neg (p : Nat) (x : K) :
    roundNearestEven p (-x) = -roundNearestEven p x := by
  rcases lt_trichotomy x 0 with h | h | h
  · unfold roundNearestEven
    have h1 : ¬ (-x = 0) := by intro h0; have := neg_eq_zero.mp h0; exact h.ne this
    have h2 : ¬ (-x < 0) := by simp; exact h.le
    rw [if_neg h1, if_neg h.ne, abs_neg, if_neg h2, if_pos h]
    ring
  · subst h
    simp [roundNearestEven]
  · unfold roundNearestEven
    have h1 : ¬ (-x = 0) := by intro h0; have := neg_eq_zero.mp h0; exact h.ne' this
    have h2 : (-x < 0) := by simpa using h
    rw [if_neg h1, if_neg h.ne', abs_neg, if_pos h2, if_neg (not_lt.mpr h.le)]
    ring

theorem log_two_bounds {x : K} (hx : 0 < x) :
    (2 : K) ^ Int.log 2 x ≤ x ∧ x < (2 : K) ^ (Int.log 2 x + 1) := by
  have h1 := Int.zpow_log_le_self (b := 2) (by norm_num) hx
  have h2 := Int.lt_zpow_succ_log_self (b := 2) (by norm_num) x
  simp only [Nat.cast_ofNat] at h1 h2
  exact ⟨h1, h2⟩

theorem log_two_eq {x : K} (e : Int) (h1 : (2 : K) ^ e ≤ x) (h2 : x < (2 : K) ^ (e + 1)) :
    Int.log 2 x = e := by
  have h0 : (0 : K) < 2 := by norm_num
  have hx : 0 < x := lt_of_lt_of_le (zpow_pos h0 e) h1
  have a : e ≤ Int.log 2 x := by
    rw [← Int.zpow_le_iff_le_log (by norm_num) hx]
    simpa using h1
  have b : Int.log 2 x < e + 1 := by
    rw [← Int.lt_zpow_iff_log_lt (by norm_num) hx]
    simpa using h2
  omega

theorem roundNearestEven_pos_bounds (p : Nat) (hp : 1 ≤ p) {x : K} (hx : 0 < x) :
    (2 : K) ^ Int.log 2 x ≤ roundNearestEven p x ∧
      roundNearestEven p x ≤ (2 : K) ^ (Int.log 2 x + 1) := by
  obtain ⟨h1, h2⟩ := log_two_bounds hx
  have h0 : (0 : K) < 2 := by norm_num
  have h00 : (2 : K) ≠ 0 := by norm_num
  have hq : (0 : K) < (2 : K) ^ (Int.log 2 x - (p : Int) + 1) := zpow_pos h0 _
  rw [roundNearestEven_pos p hx]
  have e1 : (((2 : Int) ^ (p - 1) : Int) : K) * (2 : K) ^ (Int.log 2 x - (p : Int) + 1) =
      (2 : K) ^ Int.log 2 x := by
    push_cast
    rw [← zpow_natCast, ← zpow_add₀ h00]
    congr 1
    have : ((p - 1 : Nat) : Int) = (p : Int) - 1 := by omega
    rw [this]
    ring
  have e2 : (((2 : Int) ^ p : Int) : K) * (2 : K) ^ (Int.log 2 x - (p : Int) + 1) =
      (2 : K) ^ (Int.log 2 x + 1) := by
    push_cast
    rw [← zpow_natCast, ← zpow_add₀ h00]
    congr 1
    ring
  constructor
  · rw [← e1]
    apply mul_le_mul_of_nonneg_right _ hq.le
    have hm : (((2 : Int) ^ (p - 1) : Int) : K) ≤ x / (2 : K) ^ (Int.log 2 x - (p : Int) + 1) := by
      rw [le_div_iff₀ hq, e1]
      exact h1
    have := roundHalfEven_mono hm
    rw [roundHalfEven_intCast] at this
    exact_mod_cast this
  · rw [← e2]
    apply mul_le_mul_of_nonneg_right _ hq.le
    have hm : x / (2 : K) ^ (Int.log 2 x - (p : Int) + 1) ≤ (((2 : Int) ^ p : Int) : K) := by
      rw [div_le_iff₀ hq, e2]
      exact h2.le
    have := roundHalfEven_mono hm
    rw [roundHalfEven_intCast] at this
    exact_mod_cast this

theorem roundNearestEven_pos_of_pos (p : Nat) (hp : 1 ≤ p) {x : K} (hx : 0 < x) :
    0 < roundNearestEven p x :=
  lt_of_lt_of_le (zpow_pos (by norm_num) _) (roundNearestEven_pos_bounds p hp hx).1

theorem roundNearestEven_mono_pos (p : Nat) (hp : 1 ≤ p) {x y : K} (hx : 0 < x) (hxy : x ≤ y) :
    roundNearestEven p x ≤ roundNearestEven p y := by
  have hy : 0 < y := lt_of_lt_of_le hx hxy
  have hl : Int.log 2 x ≤ Int.log 2 y := Int.log_mono_right hx hxy
  rcases lt_or_eq_of_le hl with hlt | heq
  · have a := (roundNearestEven_pos_bounds p hp hx).2
    have b := (roundNearestEven_pos_bounds p hp hy).1
    have c : (2 : K) ^ (Int.log 2 x + 1) ≤ (2 : K) ^ Int.log 2 y :=
      zpow_le_zpow_right₀ (by norm_num) (by omega)
    exact le_trans a (le_trans c b)
  · rw [roundNearestEven_pos p hx, roundNearestEven_pos p hy, heq]
    have hq : (0 : K) < (2 : K) ^ (Int.log 2 y - (p : Int) + 1) := zpow_pos (by norm_num) _
    apply mul_le_mul_of_nonneg_right _ hq.le
    have := roundHalfEven_mono (div_le_div_of_nonneg_right hxy hq.le)
    exact_mod_cast this

theorem roundNearestEven_mono (p : Nat) (hp : 1 ≤ p) {x y : K} (hxy : x ≤ y) :
    roundNearestEven p x ≤ roundNearestEven p y := by
  rcases lt_trichotomy x 0 with hx | hx | hx
  · rcases lt_trichotomy y 0 with hy | hy | hy
    · have h := roundNearestEven_mono_pos p hp (neg_pos.mpr hy) (neg_le_neg hxy)
      rw [roundNearestEven_neg, roundNearestEven_neg] at h
      exact neg_le_neg_iff.mp h
    · subst hy
      rw [roundNearestEven_zero]
      have h := roundNearestEven_pos_of_pos p hp (neg_pos.mpr hx)
      rw [roundNearestEven_neg] at h
      linarith
    · have h := roundNearestEven_pos_of_pos p hp (neg_pos.mpr hx)
      rw [roundNearestEven_neg] at h
      have h2 := roundNearestEven_pos_of_pos p hp hy
      linarith
  · subst hx
    rw [roundNearestEven_zero]
    rcases lt_or_eq_of_le hxy with hy | hy
    · exact (roundNearestEven_pos_of_pos p hp hy).le
    · rw [← hy, roundNearestEven_zero]
  · exact roundNearestEven_mono_pos p hp hx hxy

theorem roundNearestEven_eq (p : Nat) (x : K) (e k : Int) (h1 : (2 : K) ^ e ≤ x)
    (h2 : x < (2 : K) ^ (e + 1)) (hk : |x / (2 : K) ^ (e - (p : Int) + 1) - (k : K)| < 1 / 2) :
    roundNearestEven p x = (k : K) * (2 : K) ^ (e - (p : Int) + 1) := by
  have hx : 0 < x := lt_of_lt_of_le (zpow_pos (by norm_num) e) h1
  rw [roundNearestEven_pos p hx, log_two_eq e h1 h2, roundHalfEven_eq_of_abs_lt _ k hk]

theorem roundNearestEven_one (p : Nat) (hp : 1 ≤ p) : roundNearestEven p (1 : K) = 1 := by
  have h00 : (2 : K) ≠ 0 := by norm_num
  have e1 : (((2 : Int) ^ (p - 1) : Int) : K) * (2 : K) ^ ((0 : Int) - (p : Int) + 1) = 1 := by
    push_cast
    rw [← zpow_natCast, ← zpow_add₀ h00]
    have : ((p - 1 : Nat) : Int) + (0 - (p : Int) + 1) = 0 := by omega
    rw [this, zpow_zero]
  rw [roundNearestEven_eq p 1 0 ((2 : Int) ^ (p - 1)) (by simp) (by norm_num), e1]
  have hq : (0 : K) < (2 : K) ^ ((0 : Int) - (p : Int) + 1) := zpow_pos (by norm_num) _
  have : (1 : K) / (2 : K) ^ ((0 : Int) - (p : Int) + 1) = (((2 : Int) ^ (p - 1) : Int) : K) := by
    rw [div_eq_iff hq.ne', e1]
  rw [this]
  simp

theorem roundNearestEven_fixed_pos (p : Nat) (k j : Int) (hk0 : 0 < k) (hk : k < 2 ^ p) :
    roundNearestEven p ((k : K) * (2 : K) ^ j) = (k : K) * (2 : K) ^ j := by
  have h0 : (0 : K) < 2 := by norm_num
  have h00 : (2 : K) ≠ 0 := by norm_num
  have hkK : (0 : K) < (k : K) := by exact_mod_cast hk0
  have hx : (0 : K) < (k : K) * (2 : K) ^ j := mul_pos hkK (zpow_pos h0 j)
  obtain ⟨h1, -⟩ := log_two_bounds hx
  have hlt : (2 : K) ^ Int.log 2 ((k : K) * (2 : K) ^ j) < (2 : K) ^ ((p : Int) + j) := by
    apply lt_of_le_of_lt h1
    rw [zpow_add₀ h00, zpow_natCast]
    apply mul_lt_mul_of_pos_right _ (zpow_pos h0 j)
    exact_mod_cast hk
  have he : Int.log 2 ((k : K) * (2 : K) ^ j) < (p : Int) + j :=
    (zpow_lt_zpow_iff_right₀ (by norm_num : (1 : K) < 2)).mp hlt
  obtain ⟨n, hn⟩ : ∃ n : Nat, (n : Int) = j - (Int.log 2 ((k : K) * (2 : K) ^ j) - (p : Int) + 1) :=
    ⟨(j - (Int.log 2 ((k : K) * (2 : K) ^ j) - (p : Int) + 1)).toNat, by omega⟩
  have hq : (0 : K) < (2 : K) ^ (Int.log 2 ((k : K) * (2 : K) ^ j) - (p : Int) + 1) :=
    zpow_pos h0 _
  have hdiv : (k : K) * (2 : K) ^ j /
      (2 : K) ^ (Int.log 2 ((k : K) * (2 : K) ^ j) - (p : Int) + 1) =
      ((k * 2 ^ n : Int) : K) := by
    rw [div_eq_iff hq.ne']
    push_cast
    rw [mul_assoc, ← zpow_natCast, ← zpow_add₀ h00, hn]
    congr 2
    ring
  rw [roundNearestEven_pos p hx, hdiv, roundHalfEven_intCast]
  push_cast
  rw [mul_assoc, ← zpow_natCast, ← zpow_add₀ h00, hn]
  congr 2
  ring

theorem roundNearestEven_fixed (p : Nat) (k j : Int) (hk : |k| < 2 ^ p) :
    roundNearestEven p ((k : K) * (2 : K) ^ j) = (k : K) * (2 : K) ^ j := by
  rcases lt_trichotomy k 0 with h | h | h
  · have hk2 : -k < 2 ^ p := by rw [abs_of_neg h] at hk; exact hk
    have := roundNearestEven_fixed_pos (K := K) p (-k) j (by omega) hk2
    push_cast at this
    rw [neg_mul, roundNearestEven_neg] at this
    exact neg_injective this
  · subst h
    simp [roundNearestEven_zero]
  · rw [abs_of_pos h] at hk
    exact roundNearestEven_fixed_pos p k j h hk

theorem roundNearestEven_laws (p : Nat) (hp : 1 ≤ p) :
    RoundingLaws (roundNearestEven p : K → K) :=
  ⟨fun _ _ h => roundNearestEven_mono p hp h, roundNearestEven_neg p,
    roundNearestEven_one p hp⟩

theorem roundHalfEven_half_odd (k : Int) (hk : k % 2 = 1) :
    roundHalfEven ((k : K) + 1 / 2) = k + 1 := by
  have hfl : Int.floor ((k : K) + 1 / 2) = k := by
    rw [Int.floor_eq_iff]
    constructor <;> linarith
  unfold roundHalfEven
  simp only
  rw [hfl]
  have h1 : ¬ ((k : K) + 1 / 2 - (k : K) < 1 / 2) := by simp
  have h2 : ¬ ((1 / 2 : K) < (k : K) + 1 / 2 - (k : K)) := by simp
  have h3 : ¬ (k % 2 = 0) := by omega
  rw [if_neg h1, if_neg h2, if_neg h3]

theorem roundNearestEven_eq_of (p : Nat) (x : K) (e k : Int) (h1 : (2 : K) ^ e ≤ x)
    (h2 : x < (2 : K) ^ (e + 1)) (hk : roundHalfEven (x / (2 : K) ^ (e - (p : Int) + 1)) = k) :
    roundNearestEven p x = (k : K) * (2 : K) ^ (e - (p : Int) + 1) := by
  have hx : 0 < x := lt_of_lt_of_le (zpow_pos (by norm_num) e) h1
  rw [roundNearestEven_pos p hx, log_two_eq e h1 h2, hk]

/-- In binary32 arithmetic the inverse of the leaking rate is not closed under the state
update: with leaking rate 293/512 the cached complement is 219/512, the inverse rounds to
B = 14658591 / 2^23, and `c * B + 1` evaluated with rounding is B + 2^-23. -/
theorem inverse_rate_not_closed_binary32 :
    roundNearestEven 24 ((1 : ℚ) - 293 / 512) = 219 / 512 ∧
    roundNearestEven 24 ((1 : ℚ) / (293 / 512)) = 14658591 / 8388608 ∧
    (14658591 / 8388608 : ℚ) <
      roundNearestEven 24 (roundNearestEven 24 (219 / 512 * (14658591 / 8388608)) + 1) := by
  have f1 : roundNearestEven 24 ((1 : ℚ) - 293 / 512) = 219 / 512 := by
    have := roundNearestEven_fixed (K := ℚ) 24 219 (-9) (by norm_num)
    norm_num at this
    norm_num
    exact this
  have f2 : roundNearestEven 24 ((1 : ℚ) / (293 / 512)) = 14658591 / 8388608 := by
    rw [roundNearestEven_eq 24 _ 0 14658591 (by norm_num) (by norm_num)
      (by norm_num [abs_lt])]
    norm_num
  have f3 : roundNearestEven 24 ((219 : ℚ) / 512 * (14658591 / 8388608)) =
      12539967 / 16777216 := by
    rw [roundNearestEven_eq 24 _ (-1) 12539967 (by norm_num) (by norm_num)
      (by norm_num [abs_lt])]
    norm_num
  have f4 : roundNearestEven 24 ((12539967 : ℚ) / 16777216 + 1) = 458081 / 262144 := by
    rw [roundNearestEven_eq_of 24 _ 0 14658592 (by norm_num) (by norm_num)
      (by
        have h := roundHalfEven_half_odd (K := ℚ) 14658591 (by norm_num)
        norm_num at h ⊢
        exact h)]
    norm_num
  refine ⟨f1, f2, ?_⟩
  rw [f3, f4]
  norm_num

end Rounding

section Claims

variable {F : Type}

/-- C3: the constructor fails with InvalidArgument exactly when a count is zero, a
leaking-rate bound or the connectivity is outside (0,1], or leakingRateMin exceeds
leakingRateMax; for every other parameter set it returns a network, whatever the
remaining parameters and the random draws are. -/
theorem create_invalidArgument_iff (A : Arith F) (L : LinAlg F) (rnd : RandomDraws F)
    (params : NetworkParamsNSLI F) :
    (NetworkNSLI.create A L rnd params = .error .invalidArgument ↔
      (params.inputCount = 0 ∨ params.neuronCount = 0 ∨ params.outputCount = 0 ∨
        ¬ (A.lt A.zero params.leakingRateMin = true ∧ A.le params.leakingRateMin A.one = true) ∨
        ¬ (A.lt A.zero params.leakingRateMax = true ∧ A.le params.leakingRateMax A.one = true) ∨
        A.lt params.leakingRateMax params.leakingRateMin = true ∨
        ¬ (A.lt A.zero params.connectivity = true ∧ A.le params.connectivity A.one = true))) ∧
    (¬ (params.inputCount = 0 ∨ params.neuronCount = 0 ∨ params.outputCount = 0 ∨
        ¬ (A.lt A.zero params.leakingRateMin = true ∧ A.le params.leakingRateMin A.one = true) ∨
        ¬ (A.lt A.zero params.leakingRateMax = true ∧ A.le params.leakingRateMax A.one = true) ∨
        A.lt params.leakingRateMax params.leakingRateMin = true ∨
        ¬ (A.lt A.zero params.connectivity = true ∧ A.le params.connectivity A.one = true)) →
      ∃ net, NetworkNSLI.create A L rnd params = .ok net ∧ net.mParams = params) := by
  have key : paramsRejected A params = true ↔
      (params.inputCount = 0 ∨ params.neuronCount = 0 ∨ params.outputCount = 0 ∨
        ¬ (A.lt A.zero params.leakingRateMin = true ∧ A.le params.leakingRateMin A.one = true) ∨
        ¬ (A.lt A.zero params.leakingRateMax = true ∧ A.le params.leakingRateMax A.one = true) ∨
        A.lt params.leakingRateMax params.leakingRateMin = true ∨
        ¬ (A.lt A.zero params.connectivity = true ∧ A.le params.connectivity A.one = true)) := by
    unfold paramsRejected
    simp only [Nat.le_zero_eq]
    generalize A.lt A.zero params.leakingRateMin = b1
    generalize A.le params.leakingRateMin A.one = b2
    generalize A.lt A.zero params.leakingRateMax = b3
    generalize A.le params.leakingRateMax A.one = b4
    generalize A.lt params.leakingRateMax params.leakingRateMin = b5
    generalize A.lt A.zero params.connectivity = b6
    generalize A.le params.connectivity A.one = b7
    by_cases h1 : params.inputCount = 0
    · simp [h1]
    by_cases h2 : params.neuronCount = 0
    · simp [h1, h2]
    by_cases h3 : params.outputCount = 0
    · simp [h1, h2, h3]
    cases b1 <;> cases b2 <;> cases b3 <;> cases b4 <;> cases b5 <;> cases b6 <;> cases b7 <;>
      simp [h1, h2, h3]
  constructor
  · rw [← key]
    unfold NetworkNSLI.create
    split_ifs with h <;> simp [h]
  · intro hn
    rw [← key] at hn
    unfold NetworkNSLI.create
    simp [hn]

/-- C5: Train fails with InvalidArgument when the input sample list is empty or when the
numbers of input and output samples differ, and the network (stored input, reservoir
state, stored output, W_out and everything else) is then exactly as before the call. -/
theorem Train_invalidArgument (A : Arith F) (L : LinAlg F) (net : NetworkNSLI F)
    (inputs outputs : List (Vec F))
    (h : inputs.length = 0 ∨ inputs.length ≠ outputs.length) :
    Train A L net inputs outputs = ⟨some .invalidArgument, net⟩ := by
  unfold Train
  rcases h with h | h
  · simp [h]
  · split_ifs <;> rfl

theorem Train_invalidArgument_witness :
    (([] : List (Vec ℚ)).length = 0 ∨ ([] : List (Vec ℚ)).length ≠ [[1]].length) ∧
    Train ratArith (oneByOneLinAlg ratArith) (unitNet ratArith (1 / 2) false true) [] [[1]] =
      ⟨some .invalidArgument, unitNet ratArith (1 / 2) false true⟩ :=
  ⟨Or.inl rfl, Train_invalidArgument ratArith (oneByOneLinAlg ratArith)
    (unitNet ratArith (1 / 2) false true) [] [[1]] (Or.inl rfl)⟩

/-- C8: Step fails with InvalidArgument for every step size `<= 0`, zero included, and
then returns the network unchanged; for every step size `> 0` it does not fail with
InvalidArgument. -/
theorem Step_invalidArgument (A : Arith F) (hA : A.Ordered) (net : NetworkNSLI F) :
    (∀ step, A.le step A.zero = true → Step A net step = ⟨some .invalidArgument, net⟩) ∧
    Step A net A.zero = ⟨some .invalidArgument, net⟩ ∧
    (∀ step, A.lt A.zero step = true → (Step A net step).err ≠ some .invalidArgument) := by
  refine ⟨?_, ?_, ?_⟩
  · intro step h
    simp [Step, h]
  · simp [Step, hA.le_zero_zero]
  · intro step h
    have hg := hA.not_le_of_lt _ _ h
    simp only [Step, hg, Bool.false_eq_true, if_false]
    split_ifs <;> simp

theorem Step_invalidArgument_witness :
    (∀ step, ratArith.le step ratArith.zero = true →
      Step ratArith (unitNet ratArith (1 / 2) false true) step =
        ⟨some .invalidArgument, unitNet ratArith (1 / 2) false true⟩) ∧
    Step ratArith (unitNet ratArith (1 / 2) false true) ratArith.zero =
      ⟨some .invalidArgument, unitNet ratArith (1 / 2) false true⟩ ∧
    (∀ step, ratArith.lt ratArith.zero step = true →
      (Step ratArith (unitNet ratArith (1 / 2) false true) step).err ≠ some .invalidArgument) :=
  Step_invalidArgument ratArith ratArith_ordered (unitNet ratArith (1 / 2) false true)

/-- C9: Step ignores the value of its step size: from the same network, any two step
sizes `> 0` give the same result (same error outcome, same reservoir state, same output
and same everything else). -/
theorem Step_stepSize_irrelevant (A : Arith F) (hA : A.Ordered) (net : NetworkNSLI F)
    (s1 s2 : F) (h1 : A.lt A.zero s1 = true) (h2 : A.lt A.zero s2 = true) :
    Step A net s1 = Step A net s2 := by
  have g1 := hA.not_le_of_lt _ _ h1
  have g2 := hA.not_le_of_lt _ _ h2
  simp [Step, g1, g2]

theorem Step_stepSize_irrelevant_witness :
    ratArith.lt ratArith.zero (1 / 10) = true ∧ ratArith.lt ratArith.zero 7 = true ∧
    Step ratArith (unitNet ratArith (1 / 2) true false) (1 / 10) =
      Step ratArith (unitNet ratArith (1 / 2) true false) 7 :=
  ⟨by simp [ratArith, fieldArith], by simp [ratArith, fieldArith],
    Step_stepSize_irrelevant ratArith ratArith_ordered (unitNet ratArith (1 / 2) true false)
      (1 / 10) 7 (by simp [ratArith, fieldArith]) (by simp [ratArith, fieldArith])⟩

/-- C10: without output feedback SetFeedbackScalings fails with LogicError for every
argument of any length; with output feedback it fails with InvalidArgument exactly when
the argument's length differs from outputCount and otherwise replaces the feedback
scaling vector by the argument, changing nothing else; a failing call leaves the network
unchanged. -/
theorem SetFeedbackScalings_spec (net : NetworkNSLI F) (scalings : Vec F) :
    (net.mParams.hasOutputFeedback = false →
      SetFeedbackScalings net scalings = ⟨some .logicError, net⟩) ∧
    (net.mParams.hasOutputFeedback = true →
      ((SetFeedbackScalings net scalings).err = some .invalidArgument ↔
        scalings.length ≠ net.mParams.outputCount) ∧
      (scalings.length ≠ net.mParams.outputCount →
        SetFeedbackScalings net scalings = ⟨some .invalidArgument, net⟩) ∧
      (scalings.length = net.mParams.outputCount →
        SetFeedbackScalings net scalings = ⟨none, { net with mWFBScaling := scalings }⟩)) ∧
    ((SetFeedbackScalings net scalings).err ≠ none →
      (SetFeedbackScalings net scalings).net = net) := by
  unfold SetFeedbackScalings
  refine ⟨?_, ?_, ?_⟩
  · intro h
    simp [h]
  · intro h
    simp only [h]
    refine ⟨?_, ?_, ?_⟩
    · split_ifs with h1 <;> simp_all
    · intro h1
      simp [h1]
    · intro h1
      simp [h1]
  · split_ifs <;> simp

/-- C1, as the code has it: for every step size `> 0`, Step replaces the reservoir state X
by `(1 - leakingRate) ⊙ X + tanh(leakingRate ⊙ preActivation)`, the leaking rate being
applied to the pre-activation inside the tanh; preActivation is `W_in·input + W·X`, plus
`W_fb·feedbackTerm` when hasOutputFeedback is set. -/
theorem Step_state (A : Arith F) (hA : A.Ordered) (net : NetworkNSLI F) (step : F)
    (hpos : A.lt A.zero step = true)
    (hcache : net.mOneMinusLeakingRate = net.mLeakingRate.map (fun r => A.sub A.one r)) :
    (Step A net step).net.mX = leakyState A net := by
  rw [Step_net A net step (hA.not_le_of_lt _ _ hpos)]
  simp only [StepUpdate, leakyState, preActivation, feedbackTerm, CALC_X_WITH_FB, CALC_X,
    TEMP, hcache]
  cases net.mParams.linearOutput <;> cases net.mParams.hasOutputFeedback <;> simp

theorem Step_state_witness :
    ratArith.lt ratArith.zero (1 / 10) = true ∧
    (unitNet ratArith (1 / 2) true true).mOneMinusLeakingRate =
      (unitNet ratArith (1 / 2) true true).mLeakingRate.map (fun r => ratArith.sub ratArith.one r) ∧
    (Step ratArith (unitNet ratArith (1 / 2) true true) (1 / 10)).net.mX =
      leakyState ratArith (unitNet ratArith (1 / 2) true true) :=
  ⟨by simp [ratArith, fieldArith], rfl,
    Step_state ratArith ratArith_ordered (unitNet ratArith (1 / 2) true true) (1 / 10)
      (by simp [ratArith, fieldArith]) rfl⟩

/-- C1 fails as stated: over the reals with the true tanh, the one-neuron network with
leaking rate 1/2, W_in = 1, W = 0, state 0 and stored input 1 has pre-activation 1; Step
yields the state tanh(1/2), whereas `(1 - leakingRate) ⊙ X + leakingRate ⊙ tanh(preActivation)`
is tanh(1)/2. -/
theorem Step_state_counterexample :
    (fieldArith ℝ Real.tanh (fun x => Real.log ((1 + x) / (1 - x)) / 2)).lt 0 1 = true ∧
    (Step (fieldArith ℝ Real.tanh (fun x => Real.log ((1 + x) / (1 - x)) / 2))
        (unitNet (fieldArith ℝ Real.tanh (fun x => Real.log ((1 + x) / (1 - x)) / 2))
          (1 / 2) false true) 1).net.mX = [Real.tanh (1 / 2)] ∧
    specState (fieldArith ℝ Real.tanh (fun x => Real.log ((1 + x) / (1 - x)) / 2))
        (unitNet (fieldArith ℝ Real.tanh (fun x => Real.log ((1 + x) / (1 - x)) / 2))
          (1 / 2) false true) = [1 / 2 * Real.tanh 1] ∧
    (Step (fieldArith ℝ Real.tanh (fun x => Real.log ((1 + x) / (1 - x)) / 2))
        (unitNet (fieldArith ℝ Real.tanh (fun x => Real.log ((1 + x) / (1 - x)) / 2))
          (1 / 2) false true) 1).net.mX ≠
      specState (fieldArith ℝ Real.tanh (fun x => Real.log ((1 + x) / (1 - x)) / 2))
        (unitNet (fieldArith ℝ Real.tanh (fun x => Real.log ((1 + x) / (1 - x)) / 2))
          (1 / 2) false true) := by
  have hx : (Step (fieldArith ℝ Real.tanh (fun x => Real.log ((1 + x) / (1 - x)) / 2))
        (unitNet (fieldArith ℝ Real.tanh (fun x => Real.log ((1 + x) / (1 - x)) / 2))
          (1 / 2) false true) 1).net.mX = [Real.tanh (1 / 2)] := by
    have h10 : ¬ ((1 : ℝ) ≤ 0) := by norm_num
    simp [Step, StepUpdate, fieldArith, unitNet, CALC_X_WITH_FB, CALC_X, TEMP, vadd,
      cwiseProduct, unaryExpr, matVec, dot, h10]
  have hs : specState (fieldArith ℝ Real.tanh (fun x => Real.log ((1 + x) / (1 - x)) / 2))
        (unitNet (fieldArith ℝ Real.tanh (fun x => Real.log ((1 + x) / (1 - x)) / 2))
          (1 / 2) false true) = [1 / 2 * Real.tanh 1] := by
    simp [specState, preActivation, fieldArith, unitNet, vadd, cwiseProduct,
      unaryExpr, matVec, dot]
  refine ⟨by simp [fieldArith], hx, hs, ?_⟩
  rw [hx, hs]
  intro h
  exact tanh_half_ne (List.cons.inj h).1

/-- C2: for every step size `> 0`, after Step the stored output is `W_out·X_new` when
linearOutput is set and `tanh(W_out·X_new)` element-wise otherwise, X_new being the
reservoir state stored by the same call (also when the call ends in OutputIsNotFinite);
W_out itself is not changed by Step. -/
theorem Step_output (A : Arith F) (hA : A.Ordered) (net : NetworkNSLI F) (step : F)
    (hpos : A.lt A.zero step = true) :
    (Step A net step).net.mOut =
      (if net.mParams.linearOutput then matVec A net.mWOut (Step A net step).net.mX
       else unaryExpr A.tanh (matVec A net.mWOut (Step A net step).net.mX)) ∧
    (Step A net step).net.mWOut = net.mWOut := by
  rw [Step_net A net step (hA.not_le_of_lt _ _ hpos)]
  unfold StepUpdate
  cases net.mParams.linearOutput <;> simp

theorem Step_output_witness :
    ratArith.lt ratArith.zero (1 / 10) = true ∧
    ((Step ratArith (unitNet ratArith (1 / 2) false false) (1 / 10)).net.mOut =
      (if (unitNet ratArith (1 / 2) false false).mParams.linearOutput then
        matVec ratArith (unitNet ratArith (1 / 2) false false).mWOut
          (Step ratArith (unitNet ratArith (1 / 2) false false) (1 / 10)).net.mX
       else unaryExpr ratArith.tanh (matVec ratArith (unitNet ratArith (1 / 2) false false).mWOut
          (Step ratArith (unitNet ratArith (1 / 2) false false) (1 / 10)).net.mX)) ∧
    (Step ratArith (unitNet ratArith (1 / 2) false false) (1 / 10)).net.mWOut =
      (unitNet ratArith (1 / 2) false false).mWOut) :=
  ⟨by simp [ratArith, fieldArith],
    Step_output ratArith ratArith_ordered (unitNet ratArith (1 / 2) false false) (1 / 10)
      (by simp [ratArith, fieldArith])⟩

/-- C6: on a well-formed network SetInputs(raw) fails with InvalidArgument exactly when
the length of raw differs from inputCount, and then leaves the network unchanged;
otherwise it stores `(raw[i] + inputBias[i]) * inputScaling[i]` at every index i below
inputCount, with the bias and scaling of the network at the call, changes nothing but the
stored input, and a following CaptureTransformedInput into a buffer of length inputCount
succeeds and returns exactly the stored input. -/
theorem SetInputs_spec (A : Arith F) (net : NetworkNSLI F) (raw : Vec F)
    (hwf : net.WellFormed) :
    ((SetInputs A net raw).err = some .invalidArgument ↔
      raw.length ≠ net.mParams.inputCount) ∧
    (raw.length ≠ net.mParams.inputCount →
      SetInputs A net raw = ⟨some .invalidArgument, net⟩) ∧
    (raw.length = net.mParams.inputCount →
      (SetInputs A net raw).err = none ∧
      (SetInputs A net raw).net = { net with mIn := (SetInputs A net raw).net.mIn } ∧
      (SetInputs A net raw).net.mIn.length = net.mParams.inputCount ∧
      (∀ i, i < net.mParams.inputCount →
        (SetInputs A net raw).net.mIn[i]? =
          some (A.mul (A.add (raw.getD i A.zero) (net.mWInBias.getD i A.zero))
            (net.mWInScaling.getD i A.zero))) ∧
      (∀ buf : Vec F, buf.length = net.mParams.inputCount →
        (CaptureTransformedInput A (SetInputs A net raw).net buf).err = none ∧
        (CaptureTransformedInput A (SetInputs A net raw).net buf).buffer =
          (SetInputs A net raw).net.mIn)) := by
  obtain ⟨hin, hsc, hbi, -⟩ := hwf
  refine ⟨?_, ?_, ?_⟩
  · unfold SetInputs
    rw [hin]
    split_ifs with h <;> simp [h]
  · intro h
    unfold SetInputs
    rw [hin]
    simp [h]
  · intro h
    have hlen : (cwiseProduct A (vadd A raw net.mWInBias) net.mWInScaling).length =
        net.mParams.inputCount := by
      simp [cwiseProduct, vadd, h, hsc, hbi]
    have hset : SetInputs A net raw =
        ⟨none, { net with mIn := cwiseProduct A (vadd A raw net.mWInBias) net.mWInScaling }⟩ := by
      unfold SetInputs
      rw [hin]
      simp [h]
    rw [hset]
    refine ⟨rfl, rfl, hlen, ?_, ?_⟩
    · intro i hi
      show (List.zipWith A.mul (List.zipWith A.add raw net.mWInBias) net.mWInScaling)[i]? = _
      rw [getElem?_zipWith_getD A.mul _ _ i A.zero A.zero
        (by simp [h, hbi]; exact hi) (by rw [hsc]; exact hi)]
      rw [getD_zipWith A.add raw net.mWInBias i A.zero A.zero A.zero
        (by rw [h]; exact hi) (by rw [hbi]; exact hi)]
    · intro buf hbuf
      unfold CaptureTransformedInput
      simp only [hbuf, ne_eq, not_true_eq_false, if_false, true_and]
      exact range_map_getD _ _ _ hlen

theorem SetInputs_spec_witness :
    (unitNet ratArith (1 / 2) false true).WellFormed ∧
    (SetInputs ratArith (unitNet ratArith (1 / 2) false true) [3]).err = none :=
  ⟨by decide,
    ((SetInputs_spec ratArith (unitNet ratArith (1 / 2) false true) [3] (by decide)).2.2 rfl).1⟩

/-- C7: CaptureOutput fails with InvalidArgument exactly when the destination buffer's
length differs from outputCount, and then leaves buffer and network as they were;
otherwise it writes `rawOutput[i] * outputScale[i] + outputBias[i]` at every channel i;
it never modifies the network, so a second call returns the same values. -/
theorem CaptureOutput_spec (A : Arith F) (net : NetworkNSLI F) (output : Vec F) :
    ((CaptureOutput A net output).err = some .invalidArgument ↔
      output.length ≠ net.mParams.outputCount) ∧
    (output.length ≠ net.mParams.outputCount →
      CaptureOutput A net output = ⟨some .invalidArgument, net, output⟩) ∧
    (output.length = net.mParams.outputCount →
      (CaptureOutput A net output).err = none ∧
      (CaptureOutput A net output).buffer.length = net.mParams.outputCount ∧
      ∀ i, i < net.mParams.outputCount →
        (CaptureOutput A net output).buffer[i]? =
          some (A.add (A.mul (net.mOut.getD i A.zero) (net.mOutScale.getD i A.zero))
            (net.mOutBias.getD i A.zero))) ∧
    (CaptureOutput A net output).net = net ∧
    (∀ output2 : Vec F, output.length = net.mParams.outputCount →
      output2.length = net.mParams.outputCount →
      (CaptureOutput A (CaptureOutput A net output).net output2).buffer =
        (CaptureOutput A net output).buffer) := by
  unfold CaptureOutput
  refine ⟨?_, ?_, ?_, ?_, ?_⟩
  · split_ifs with h <;> simp [h]
  · intro h
    simp [h]
  · intro h
    simp only [h, ne_eq, not_true_eq_false, if_false, List.length_map, List.length_range,
      true_and]
    intro i hi
    simp [hi]
  · split_ifs <;> rfl
  · intro output2 h1 h2
    simp [h1, h2]

/-- C7, the example of the specification: with raw output [a, b], scale [2,2] and bias
[1,1], CaptureOutput returns [2a + 1, 2b + 1] in exact arithmetic. -/
theorem CaptureOutput_example (a b : ℚ) :
    (CaptureOutput ratArith
      { unitNet ratArith (1 / 2) false true with
        mParams := { (unitNet ratArith (1 / 2) false true).mParams with outputCount := 2 }
        mOut := [a, b], mOutScale := [2, 2], mOutBias := [1, 1] } [0, 0]).buffer =
      [a * 2 + 1, b * 2 + 1] := by
  simp [CaptureOutput, ratArith, fieldArith, List.range_succ]

/-- C4, as the code has it: for a well-formed network, a non-empty sample list with as
many targets as inputs, inputs of length inputCount and targets of length outputCount,
and provided the output of every Step of the pass is finite (no Step raises
OutputIsNotFinite), Train returns normally with `W_out = Y·Xᵀ·(X·Xᵀ)⁻¹`, where the columns
of X are the reservoir states after SetInputs(inputs[i]) and Step(0.1), in sample order
from the network before the call, and the columns of Y are the targets; the reservoir
state after Train is the last column of X. -/
theorem Train_readout (A : Arith F) (hA : A.Ordered) (L : LinAlg F) (net : NetworkNSLI F)
    (inputs outputs : List (Vec F)) (hwf : net.WellFormed) (hne : inputs ≠ [])
    (hlen : inputs.length = outputs.length)
    (hin : ∀ v ∈ inputs, v.length = net.mParams.inputCount)
    (hout : ∀ v ∈ outputs, v.length = net.mParams.outputCount)
    (hfin : ∀ n ∈ trajectory A net inputs, ∀ o ∈ n.mOut, A.isfinite o = true) :
    (Train A L net inputs outputs).err = none ∧
    (Train A L net inputs outputs).net.mWOut =
      readout A L net.mParams.neuronCount net.mParams.outputCount inputs.length
        ((trajectory A net inputs).map (fun n => n.mX)) outputs ∧
    ((trajectory A net inputs).map (fun n => n.mX)).getLast? =
      some (Train A L net inputs outputs).net.mX := by
  obtain ⟨h1, h2, h3, -⟩ := hwf
  have hloop := TrainLoop_eq A hA inputs net outputs [] [] h1 h3 h2 hin hlen hout hfin
  have hparams : ∀ (ins : List (Vec F)) (n : NetworkNSLI F),
      n.mIn.length = n.mParams.inputCount → n.mWInBias.length = n.mParams.inputCount →
      n.mWInScaling.length = n.mParams.inputCount →
      (∀ v ∈ ins, v.length = n.mParams.inputCount) →
      (ins.foldl (advance A) n).mParams = n.mParams := by
    intro ins
    induction ins with
    | nil => intro n _ _ _ _; rfl
    | cons inp ins ih =>
      intro n a b c d
      obtain ⟨f1, f2, f3, f4⟩ := advance_frame A n inp (d inp (List.mem_cons_self _ _)) a b c
      rw [List.foldl_cons, ih (advance A n inp) (by rw [f1]; exact f2) (by rw [f1]; exact f3)
        (by rw [f1]; exact f4) (by rw [f1]; exact fun v hv => d v (List.mem_cons_of_mem _ hv)), f1]
  have hp := hparams inputs net h1 h3 h2 hin
  have hl0 : inputs.length ≠ 0 := fun h => hne (List.length_eq_zero.mp h)
  have htrain : Train A L net inputs outputs =
      ⟨none, { inputs.foldl (advance A) net with
        mWOut := readout A L net.mParams.neuronCount net.mParams.outputCount inputs.length
          ((trajectory A net inputs).map (fun n => n.mX)) outputs }⟩ := by
    unfold Train
    rw [if_neg hl0, if_neg (by simpa using hlen), hloop]
    simp [hp]
  rw [htrain]
  refine ⟨rfl, rfl, ?_⟩
  rw [List.getLast?_map, trajectory_getLast A inputs net hne]
  rfl

theorem Train_readout_witness :
    (unitNet ratArith (1 / 2) false true).WellFormed ∧
    (Train ratArith (oneByOneLinAlg ratArith) (unitNet ratArith (1 / 2) false true)
      [[3], [5]] [[1], [2]]).err = none :=
  ⟨by decide,
    (Train_readout ratArith ratArith_ordered (oneByOneLinAlg ratArith)
      (unitNet ratArith (1 / 2) false true) [[3], [5]] [[1], [2]] (by decide) (by simp) rfl
      (by simp [unitNet]) (by simp [unitNet])
      (by intro n _ o _; rfl)).1⟩

/-- C4 fails as stated: in the arithmetic of the reals extended with a NaN, on the
well-formed one-neuron network with zero readout, the batch of the single sample with
input [NaN] and target [0] makes Step compute the output 0 * NaN = NaN, so Train ends in
OutputIsNotFinite and W_out keeps its value [[0]], whereas `Y·Xᵀ·(X·Xᵀ)⁻¹` over the
state column of that sample is [[NaN]]. -/
theorem Train_readout_counterexample :
    (unitNet (nanArith ℝ Real.tanh (fun x => Real.log ((1 + x) / (1 - x)) / 2))
      (some (1 / 2)) false true).WellFormed ∧
    (Train (nanArith ℝ Real.tanh (fun x => Real.log ((1 + x) / (1 - x)) / 2))
      (oneByOneLinAlg (nanArith ℝ Real.tanh (fun x => Real.log ((1 + x) / (1 - x)) / 2)))
      (unitNet (nanArith ℝ Real.tanh (fun x => Real.log ((1 + x) / (1 - x)) / 2))
        (some (1 / 2)) false true) [[none]] [[some 0]]).err = some .outputIsNotFinite ∧
    (Train (nanArith ℝ Real.tanh (fun x => Real.log ((1 + x) / (1 - x)) / 2))
      (oneByOneLinAlg (nanArith ℝ Real.tanh (fun x => Real.log ((1 + x) / (1 - x)) / 2)))
      (unitNet (nanArith ℝ Real.tanh (fun x => Real.log ((1 + x) / (1 - x)) / 2))
        (some (1 / 2)) false true) [[none]] [[some 0]]).net.mWOut = [[some 0]] ∧
    readout (nanArith ℝ Real.tanh (fun x => Real.log ((1 + x) / (1 - x)) / 2))
      (oneByOneLinAlg (nanArith ℝ Real.tanh (fun x => Real.log ((1 + x) / (1 - x)) / 2))) 1 1 1
      ((trajectory (nanArith ℝ Real.tanh (fun x => Real.log ((1 + x) / (1 - x)) / 2))
        (unitNet (nanArith ℝ Real.tanh (fun x => Real.log ((1 + x) / (1 - x)) / 2))
          (some (1 / 2)) false true) [[none]]).map (fun n => n.mX)) [[some 0]] = [[none]] := by
  have h10 : ¬ ((10 : ℝ) ≤ 0) := by norm_num
  refine ⟨by decide, ?_, ?_, ?_⟩
  · simp [Train, TrainLoop, SetInputs, Step, StepUpdate, CALC_X_WITH_FB, CALC_X, TEMP, nanArith,
      unitNet, vadd, cwiseProduct, unaryExpr, matVec, dot, h10]
  · simp [Train, TrainLoop, SetInputs, Step, StepUpdate, CALC_X_WITH_FB, CALC_X, TEMP, nanArith,
      unitNet, vadd, cwiseProduct, unaryExpr, matVec, dot, h10]
  · simp [readout, trajectory, advance, SetInputs, Step, StepUpdate, CALC_X_WITH_FB, CALC_X,
      TEMP, nanArith, unitNet, vadd, cwiseProduct, unaryExpr, matVec, dot, matMul, ofColumns,
      transpose, column, oneByOneLinAlg, List.range_succ, h10]

/-- C19: for every step size `> 0`, Step fails with OutputIsNotFinite exactly when some
element of the output computed by the call is not finite; failing or not, the network
it leaves holds the newly computed state and output (nothing is rolled back); and a Step
that returns normally leaves every output element finite. -/
theorem Step_notFinite_iff (A : Arith F) (hA : A.Ordered) (net : NetworkNSLI F)
    (step : F) (hpos : A.lt A.zero step = true) :
    ((Step A net step).err = some .outputIsNotFinite ↔
      ∃ o ∈ (StepUpdate A net).mOut, A.isfinite o = false) ∧
    (Step A net step).net = StepUpdate A net ∧
    ((Step A net step).err = none →
      ∀ o ∈ (Step A net step).net.mOut, A.isfinite o = true) := by
  have hg := hA.not_le_of_lt _ _ hpos
  refine ⟨?_, Step_net A net step hg, ?_⟩
  · unfold Step
    simp only [hg, Bool.false_eq_true, if_false]
    split_ifs with h
    · simpa using h
    · simpa using h
  · rw [Step_net A net step hg]
    unfold Step
    simp only [hg, Bool.false_eq_true, if_false]
    split_ifs with h
    · intro h1
      cases h1
    · intro _ o ho
      simp only [List.any_eq_true, Bool.not_eq_true_eq_eq_false, not_exists, not_and,
        Bool.not_eq_false] at h
      exact h o ho

theorem Step_notFinite_iff_witness :
    (nanArith ℚ softsign softsign).lt (nanArith ℚ softsign softsign).zero (some 1) = true ∧
    (Step (nanArith ℚ softsign softsign)
      { unitNet (nanArith ℚ softsign softsign) (some (1 / 2)) false true with mIn := [none] }
      (some 1)).err = some .outputIsNotFinite :=
  ⟨by simp [nanArith],
    (Step_notFinite_iff (nanArith ℚ softsign softsign)
      (nanArith_ordered ℚ softsign softsign)
      { unitNet (nanArith ℚ softsign softsign) (some (1 / 2)) false true with mIn := [none] }
      (some 1) (by simp [nanArith])).1.2
      ⟨none, by simp [StepUpdate, CALC_X_WITH_FB, CALC_X, TEMP, nanArith, unitNet, vadd,
        cwiseProduct, unaryExpr, matVec, dot], rfl⟩⟩

/-- C15, as the code has it: when useOrthonormalMatrix is set and the parameters are
valid, the constructor sets the reservoir matrix to `U · V`, the product of `matrixU()`
and `matrixV()` of the singular value decomposition of the raw (masked random) weight
matrix, V not being transposed. -/
theorem create_orthonormal_reservoir (A : Arith F) (L : LinAlg F) (rnd : RandomDraws F)
    (params : NetworkParamsNSLI F) (hvalid : paramsRejected A params = false)
    (hortho : params.useOrthonormalMatrix = true) :
    ∃ net, NetworkNSLI.create A L rnd params = .ok net ∧
      net.mW = matMul A params.neuronCount (L.matrixU (randomWeights A rnd params))
        (L.matrixV (randomWeights A rnd params)) := by
  obtain ⟨net, hc, -, -, -, -, hw, -⟩ := create_of_valid A L rnd params hvalid
  refine ⟨net, hc, ?_⟩
  rw [hw]
  simp [reservoirMatrix, hortho]

theorem create_orthonormal_reservoir_witness :
    paramsRejected ratArith cyclicParams = false ∧
    cyclicParams.useOrthonormalMatrix = true ∧
    ∃ net, NetworkNSLI.create ratArith (cyclicLinAlg ratArith) cyclicDraws cyclicParams =
        .ok net ∧
      net.mW = matMul ratArith cyclicParams.neuronCount
        ((cyclicLinAlg ratArith).matrixU (randomWeights ratArith cyclicDraws cyclicParams))
        ((cyclicLinAlg ratArith).matrixV (randomWeights ratArith cyclicDraws cyclicParams)) :=
  ⟨by simp [paramsRejected, ratArith, fieldArith, cyclicParams]; norm_num, rfl,
    create_orthonormal_reservoir ratArith (cyclicLinAlg ratArith) cyclicDraws cyclicParams
      (by simp [paramsRejected, ratArith, fieldArith, cyclicParams]; norm_num) rfl⟩

/-- C15 fails as stated: for the raw weights `[0, 1, 0]`, `[0, 0, 1/2]`, `[1/4, 0, 0]`,
whose singular value decomposition is `U · diag(1, 1/2, 1/4) · Vᵀ` with U the identity and
V the cyclic permutation `[0, 0, 1]`, `[1, 0, 0]`, `[0, 1, 0]` (both orthonormal), the
constructor sets W to `U · V = V`, whereas `U · Vᵀ` is `[0, 1, 0]`, `[0, 0, 1]`,
`[1, 0, 0]`. -/
theorem create_orthonormal_reservoir_counterexample :
    randomWeights ratArith cyclicDraws cyclicParams =
      [[0, 1, 0], [0, 0, 1 / 2], [1 / 4, 0, 0]] ∧
    matMul ratArith 3
      (matMul ratArith 3 ((cyclicLinAlg ratArith).matrixU [[0, 1, 0], [0, 0, 1 / 2], [1 / 4, 0, 0]])
        [[1, 0, 0], [0, 1 / 2, 0], [0, 0, 1 / 4]])
      (transpose ratArith 3
        ((cyclicLinAlg ratArith).matrixV [[0, 1, 0], [0, 0, 1 / 2], [1 / 4, 0, 0]])) =
      [[0, 1, 0], [0, 0, 1 / 2], [1 / 4, 0, 0]] ∧
    matMul ratArith 3
      (transpose ratArith 3
        ((cyclicLinAlg ratArith).matrixU [[0, 1, 0], [0, 0, 1 / 2], [1 / 4, 0, 0]]))
      ((cyclicLinAlg ratArith).matrixU [[0, 1, 0], [0, 0, 1 / 2], [1 / 4, 0, 0]]) =
      [[1, 0, 0], [0, 1, 0], [0, 0, 1]] ∧
    matMul ratArith 3
      (transpose ratArith 3
        ((cyclicLinAlg ratArith).matrixV [[0, 1, 0], [0, 0, 1 / 2], [1 / 4, 0, 0]]))
      ((cyclicLinAlg ratArith).matrixV [[0, 1, 0], [0, 0, 1 / 2], [1 / 4, 0, 0]]) =
      [[1, 0, 0], [0, 1, 0], [0, 0, 1]] ∧
    matMul ratArith 3
      ((cyclicLinAlg ratArith).matrixU [[0, 1, 0], [0, 0, 1 / 2], [1 / 4, 0, 0]])
      (transpose ratArith 3
        ((cyclicLinAlg ratArith).matrixV [[0, 1, 0], [0, 0, 1 / 2], [1 / 4, 0, 0]])) =
      [[0, 1, 0], [0, 0, 1], [1, 0, 0]] ∧
    ∃ net, NetworkNSLI.create ratArith (cyclicLinAlg ratArith) cyclicDraws cyclicParams =
        .ok net ∧
      net.mW = [[0, 0, 1], [1, 0, 0], [0, 1, 0]] ∧
      net.mW ≠ [[0, 1, 0], [0, 0, 1], [1, 0, 0]] := by
  have hraw : randomWeights ratArith cyclicDraws cyclicParams =
      [[0, 1, 0], [0, 0, 1 / 2], [1 / 4, 0, 0]] := by
    simp [randomWeights, matOfFn, ratArith, fieldArith, cyclicDraws, cyclicParams,
      List.range_succ]
    norm_num
  have hvalid : paramsRejected ratArith cyclicParams = false := by
    simp [paramsRejected, ratArith, fieldArith, cyclicParams]
    norm_num
  obtain ⟨net, hc, -, -, -, -, hw, -⟩ :=
    create_of_valid ratArith (cyclicLinAlg ratArith) cyclicDraws cyclicParams hvalid
  have hW : net.mW = [[0, 0, 1], [1, 0, 0], [0, 1, 0]] := by
    rw [hw]
    simp [reservoirMatrix, cyclicParams, cyclicLinAlg, matMul, column, dot, ratArith,
      fieldArith, List.range_succ]
  refine ⟨hraw, ?_, ?_, ?_, ?_, net, hc, hW, ?_⟩
  · simp [cyclicLinAlg, matMul, transpose, column, dot, ratArith, fieldArith, List.range_succ]
  · simp [cyclicLinAlg, matMul, transpose, column, dot, ratArith, fieldArith, List.range_succ]
  · simp [cyclicLinAlg, matMul, transpose, column, dot, ratArith, fieldArith, List.range_succ]
  · simp [cyclicLinAlg, matMul, transpose, column, dot, ratArith, fieldArith, List.range_succ]
  · rw [hW]
    simp

/-- C12: on a well-formed network and for a channel index below outputCount,
TrainSingleOutputOnline(index, value, force) returns normally; with force set it
overwrites the stored raw output at that index with exactly the de-normalized target
`(value - outputBias[index]) / outputScale[index]` and leaves the other stored outputs as
they were; with force not set the stored output is unchanged. -/
theorem TrainSingleOutputOnline_force (A : Arith F) (net : NetworkNSLI F) (index : Nat)
    (value : F) (force : Bool) (hindex : index < net.mParams.outputCount)
    (hwf : net.WellFormed) (hon : net.OnlineWellFormed) :
    (TrainSingleOutputOnline A net index value force).err = none ∧
    (force = true →
      (TrainSingleOutputOnline A net index value force).net.mOut =
        net.mOut.set index (A.div (A.sub value (net.mOutBias.getD index A.zero))
          (net.mOutScale.getD index A.zero)) ∧
      (TrainSingleOutputOnline A net index value force).net.mOut.getD index A.zero =
        A.div (A.sub value (net.mOutBias.getD index A.zero))
          (net.mOutScale.getD index A.zero)) ∧
    (force = false →
      (TrainSingleOutputOnline A net index value force).net.mOut = net.mOut) := by
  obtain ⟨e1, -, -, -, -, -, -, -, f1, f2⟩ :=
    TrainSingleOutputOnline_frame A net index value force hindex hwf hon
  refine ⟨e1, ?_, f2⟩
  intro hf
  refine ⟨f1 hf, ?_⟩
  rw [f1 hf]
  exact getD_set_self _ _ _ _ (by rw [hwf.2.2.2.2.2.2.2.2.1]; exact hindex)

theorem TrainSingleOutputOnline_force_witness :
    (0 : Nat) < (unitNet ratArith (1 / 2) false true).mParams.outputCount ∧
    (unitNet ratArith (1 / 2) false true).WellFormed ∧
    (unitNet ratArith (1 / 2) false true).OnlineWellFormed ∧
    (TrainSingleOutputOnline ratArith (unitNet ratArith (1 / 2) false true) 0 5 true).err =
      none :=
  ⟨by decide, by decide, by decide,
    (TrainSingleOutputOnline_force ratArith (unitNet ratArith (1 / 2) false true) 0 5 true
      (by decide) (by decide) (by decide)).1⟩

/-- C13, as the code has it: on a well-formed network, after TrainOnline(outputs,
forceOutput = true) the stored raw output of every channel i is the de-normalized target
`(outputs[i] - outputBias[i]) / outputScale[i]` (outputs having outputCount elements),
and the next CaptureOutput (with no Step in between) returns that value scaled and biased
again,
`((outputs[i] - outputBias[i]) / outputScale[i]) * outputScale[i] + outputBias[i]`. -/
theorem TrainOnline_capture (A : Arith F) (net : NetworkNSLI F) (outputs buf : Vec F)
    (hwf : net.WellFormed) (hon : net.OnlineWellFormed)
    (_houtputs : outputs.length = net.mParams.outputCount)
    (hbuf : buf.length = net.mParams.outputCount) :
    (TrainOnline A net outputs true).err = none ∧
    (∀ i, i < net.mParams.outputCount →
      (TrainOnline A net outputs true).net.mOut.getD i A.zero =
        A.div (A.sub (outputs.getD i A.zero) (net.mOutBias.getD i A.zero))
          (net.mOutScale.getD i A.zero)) ∧
    (CaptureOutput A (TrainOnline A net outputs true).net buf).err = none ∧
    (∀ i, i < net.mParams.outputCount →
      (CaptureOutput A (TrainOnline A net outputs true).net buf).buffer[i]? =
        some (A.add (A.mul
          (A.div (A.sub (outputs.getD i A.zero) (net.mOutBias.getD i A.zero))
            (net.mOutScale.getD i A.zero))
          (net.mOutScale.getD i A.zero)) (net.mOutBias.getD i A.zero))) := by
  obtain ⟨e, -, -, hp, -, -, hs, hb, -, hm, -⟩ :=
    TrainOnlineLoop_spec A outputs true (List.range net.mParams.outputCount) net hwf hon
      (fun i hi => List.mem_range.mp hi)
  have hout : ∀ i, i < net.mParams.outputCount →
      (TrainOnline A net outputs true).net.mOut.getD i A.zero =
        A.div (A.sub (outputs.getD i A.zero) (net.mOutBias.getD i A.zero))
          (net.mOutScale.getD i A.zero) :=
    fun i hi => hm rfl i (List.mem_range.mpr hi)
  refine ⟨e, hout, ?_, ?_⟩
  · unfold CaptureOutput
    rw [show (TrainOnline A net outputs true).net.mParams = net.mParams from hp]
    simp [hbuf]
  · intro i hi
    unfold CaptureOutput
    rw [show (TrainOnline A net outputs true).net.mParams = net.mParams from hp,
      show (TrainOnline A net outputs true).net.mOutScale = net.mOutScale from hs,
      show (TrainOnline A net outputs true).net.mOutBias = net.mOutBias from hb]
    simp only [hbuf, ne_eq, not_true_eq_false, if_false]
    rw [List.getElem?_map, List.getElem?_range hi]
    simp only [Option.map_some']
    rw [hout i hi]

theorem TrainOnline_capture_witness :
    (unitNet ratArith (1 / 2) false true).WellFormed ∧
    (unitNet ratArith (1 / 2) false true).OnlineWellFormed ∧
    (TrainOnline ratArith (unitNet ratArith (1 / 2) false true) [5] true).err = none :=
  ⟨by decide, by decide,
    (TrainOnline_capture ratArith (unitNet ratArith (1 / 2) false true) [5] [0]
      (by decide) (by decide) rfl rfl).1⟩

/-- C13 fails as stated: in exact rational arithmetic, on the one-channel network with
linear output (no tanh or atanh is evaluated), output scale [2] and output bias [1],
TrainOnline([5], forceOutput = true) stores the de-normalized target (5 - 1) / 2 = 2, and
the next CaptureOutput returns 2 * 2 + 1 = 5, the target itself, not the de-normalized
value 2. -/
theorem TrainOnline_capture_counterexample :
    ({ unitNet ratArith (1 / 2) false true with
        mOutScale := [2], mOutBias := [1] } : NetworkNSLI ℚ).WellFormed ∧
    ({ unitNet ratArith (1 / 2) false true with
        mOutScale := [2], mOutBias := [1] } : NetworkNSLI ℚ).OnlineWellFormed ∧
    (TrainOnline ratArith { unitNet ratArith (1 / 2) false true with
        mOutScale := [2], mOutBias := [1] } [5] true).err = none ∧
    (TrainOnline ratArith { unitNet ratArith (1 / 2) false true with
        mOutScale := [2], mOutBias := [1] } [5] true).net.mOut = [2] ∧
    (CaptureOutput ratArith (TrainOnline ratArith { unitNet ratArith (1 / 2) false true with
        mOutScale := [2], mOutBias := [1] } [5] true).net [0]).buffer = [5] ∧
    ratArith.div (ratArith.sub 5 1) 2 = 2 ∧ (5 : ℚ) ≠ 2 := by
  have hrun : (TrainOnline ratArith { unitNet ratArith (1 / 2) false true with
      mOutScale := [2], mOutBias := [1] } [5] true) =
      ⟨none, { unitNet ratArith (1 / 2) false true with
        mOutScale := [2], mOutBias := [1], mOut := [2] }⟩ := by
    simp [TrainOnline, TrainOnlineLoop, TrainSingleOutputOnline, filterCall, denormalize,
      AdaptiveFilterRLS.Train, AdaptiveFilterRLS.create, unitNet, ratArith, fieldArith,
      matVec, matOfFn, dot, column, List.range_succ]
    norm_num
  refine ⟨by decide, by decide, ?_, ?_, ?_, ?_, by norm_num⟩
  · rw [hrun]
  · rw [hrun]
  · rw [hrun]
    simp [CaptureOutput, unitNet, ratArith, fieldArith, List.range_succ]
    norm_num
  · simp [ratArith, fieldArith]
    norm_num

/-- C18: on a well-formed network and for a channel index k below outputCount,
TrainSingleOutputOnline(k, value, force) leaves the reservoir state, the stored input,
every row of W_out other than k, every stored output other than k and every adaptive
filter other than k unchanged, and leaves the whole stored output unchanged when force
is not set.  Consequently TrainOnline returns normally and row i of W_out after
TrainOnline(outputs, f) is the same for any two target vectors that agree at index i. -/
theorem TrainOnline_channel_local (A : Arith F) (net : NetworkNSLI F) (k : Nat) (value : F)
    (force : Bool) (hk : k < net.mParams.outputCount) (hwf : net.WellFormed)
    (hon : net.OnlineWellFormed) :
    (TrainSingleOutputOnline A net k value force).net.mX = net.mX ∧
    (TrainSingleOutputOnline A net k value force).net.mIn = net.mIn ∧
    (∀ i, i ≠ k →
      (TrainSingleOutputOnline A net k value force).net.mWOut.getD i [] =
        net.mWOut.getD i [] ∧
      (TrainSingleOutputOnline A net k value force).net.mOut.getD i A.zero =
        net.mOut.getD i A.zero ∧
      (TrainSingleOutputOnline A net k value force).net.mAdaptiveFilter.getD i ⟨A.zero, []⟩ =
        net.mAdaptiveFilter.getD i ⟨A.zero, []⟩) ∧
    (force = false → (TrainSingleOutputOnline A net k value force).net.mOut = net.mOut) ∧
    (∀ (o1 o2 : Vec F) (f : Bool) (i : Nat), i < net.mParams.outputCount →
      o1.length = net.mParams.outputCount → o2.length = net.mParams.outputCount →
      o1.getD i A.zero = o2.getD i A.zero →
      (TrainOnline A net o1 f).err = none ∧ (TrainOnline A net o2 f).err = none ∧
      (TrainOnline A net o1 f).net.mWOut.getD i [] =
        (TrainOnline A net o2 f).net.mWOut.getD i []) := by
  obtain ⟨-, -, x1, i1, -, -, o1, -, -, f2⟩ :=
    TrainSingleOutputOnline_frame A net k value force hk hwf hon
  refine ⟨x1, i1, o1, f2, ?_⟩
  intro t1 t2 f i hi _ _ hagree
  obtain ⟨e1, -, -, -, -, -, -, -, -, -, r1⟩ :=
    TrainOnlineLoop_spec A t1 f (List.range net.mParams.outputCount) net hwf hon
      (fun i hi => List.mem_range.mp hi)
  obtain ⟨e2, -, -, -, -, -, -, -, -, -, r2⟩ :=
    TrainOnlineLoop_spec A t2 f (List.range net.mParams.outputCount) net hwf hon
      (fun i hi => List.mem_range.mp hi)
  refine ⟨e1, e2, ?_⟩
  unfold TrainOnline
  rw [r1 (List.nodup_range _) i (List.mem_range.mpr hi),
    r2 (List.nodup_range _) i (List.mem_range.mpr hi), hagree]

theorem TrainOnline_channel_local_witness :
    (0 : Nat) < (unitNet ratArith (1 / 2) false true).mParams.outputCount ∧
    (unitNet ratArith (1 / 2) false true).WellFormed ∧
    (unitNet ratArith (1 / 2) false true).OnlineWellFormed ∧
    (TrainSingleOutputOnline ratArith (unitNet ratArith (1 / 2) false true) 0 5 false).net.mX =
      (unitNet ratArith (1 / 2) false true).mX :=
  ⟨by decide, by decide, by decide,
    (TrainOnline_channel_local ratArith (unitNet ratArith (1 / 2) false true) 0 5 false
      (by decide) (by decide) (by decide)).1⟩

/-- C11, as the code has it: for a well-formed network and a non-empty batch of correctly
sized samples whose targets are all zero vectors, provided no Step of the pass raises
OutputIsNotFinite and the collected reservoir states and the entries of the computed
inverse of `X·Xᵀ` are all finite, Train returns normally and leaves W_out equal to the
zero matrix (outputCount × neuronCount). -/
theorem Train_zero_targets (A : Arith F) (hA : A.Ordered) (hZ : A.ZeroLaws) (L : LinAlg F)
    (net : NetworkNSLI F) (inputs outputs : List (Vec F)) (hwf : net.WellFormed)
    (hne : inputs ≠ []) (hlen : inputs.length = outputs.length)
    (hin : ∀ v ∈ inputs, v.length = net.mParams.inputCount)
    (hout : ∀ v ∈ outputs, v = List.replicate net.mParams.outputCount A.zero)
    (hfin : ∀ n ∈ trajectory A net inputs, ∀ o ∈ n.mOut, A.isfinite o = true)
    (hX : ∀ n ∈ trajectory A net inputs, ∀ x ∈ n.mX, A.isfinite x = true)
    (hinv : ∀ r ∈ L.inverse (matMul A net.mParams.neuronCount
        (ofColumns A net.mParams.neuronCount ((trajectory A net inputs).map (fun n => n.mX)))
        (transpose A inputs.length
          (ofColumns A net.mParams.neuronCount
            ((trajectory A net inputs).map (fun n => n.mX))))),
      ∀ e ∈ r, A.isfinite e = true) :
    (Train A L net inputs outputs).err = none ∧
    (Train A L net inputs outputs).net.mWOut =
      matOfFn net.mParams.outputCount net.mParams.neuronCount (fun _ _ => A.zero) := by
  rw [Train_eq A hA L net inputs outputs hwf hne hlen hin
    (fun v hv => by rw [hout v hv, List.length_replicate]) hfin]
  refine ⟨rfl, ?_⟩
  apply readout_zero A hZ L _ _ _ _ _ _ _ hinv
  · intro v hv e he
    rw [hout v hv] at he
    exact (List.mem_replicate.mp he).2
  · intro c hc
    simp only [List.mem_map] at hc
    obtain ⟨n, hn, rfl⟩ := hc
    exact hX n hn

theorem Train_zero_targets_witness :
    (unitNet ratArith (1 / 2) false true).WellFormed ∧
    (Train ratArith (oneByOneLinAlg ratArith) (unitNet ratArith (1 / 2) false true)
      [[3], [5]] [[0], [0]]).net.mWOut = [[0]] :=
  ⟨by decide,
    (Train_zero_targets ratArith ratArith_ordered ratArith_zeroLaws (oneByOneLinAlg ratArith)
      (unitNet ratArith (1 / 2) false true) [[3], [5]] [[0], [0]] (by decide) (by simp) rfl
      (by simp [unitNet]) (by simp [unitNet, ratArith, fieldArith])
      (by intro n _ o _; rfl) (by intro n _ o _; rfl) (by intro n _ o _; rfl)).2⟩

/-- C11 fails as stated: in the arithmetic of the reals extended with a NaN, on the
well-formed one-neuron network with zero state, the batch of the single sample with
input [0] and target [0] collects the state 0, so `X·Xᵀ = 0` is singular and its inverse
1 / 0 is not finite; Train returns normally and sets W_out to 0 * NaN = NaN, not to the
zero matrix. -/
theorem Train_zero_targets_counterexample :
    (unitNet (nanArith ℝ Real.tanh (fun x => Real.log ((1 + x) / (1 - x)) / 2))
      (some (1 / 2)) false true).WellFormed ∧
    (trajectory (nanArith ℝ Real.tanh (fun x => Real.log ((1 + x) / (1 - x)) / 2))
      (unitNet (nanArith ℝ Real.tanh (fun x => Real.log ((1 + x) / (1 - x)) / 2))
        (some (1 / 2)) false true) [[some 0]]).map (fun n => n.mX) = [[some 0]] ∧
    (Train (nanArith ℝ Real.tanh (fun x => Real.log ((1 + x) / (1 - x)) / 2))
      (oneByOneLinAlg (nanArith ℝ Real.tanh (fun x => Real.log ((1 + x) / (1 - x)) / 2)))
      (unitNet (nanArith ℝ Real.tanh (fun x => Real.log ((1 + x) / (1 - x)) / 2))
        (some (1 / 2)) false true) [[some 0]] [[some 0]]).err = none ∧
    (Train (nanArith ℝ Real.tanh (fun x => Real.log ((1 + x) / (1 - x)) / 2))
      (oneByOneLinAlg (nanArith ℝ Real.tanh (fun x => Real.log ((1 + x) / (1 - x)) / 2)))
      (unitNet (nanArith ℝ Real.tanh (fun x => Real.log ((1 + x) / (1 - x)) / 2))
        (some (1 / 2)) false true) [[some 0]] [[some 0]]).net.mWOut = [[none]] ∧
    ([[none]] : Mat (Option ℝ)) ≠ matOfFn 1 1 (fun _ _ => some 0) := by
  have h10 : ¬ ((10 : ℝ) ≤ 0) := by norm_num
  refine ⟨by decide, ?_, ?_, ?_, ?_⟩
  · simp [trajectory, advance, SetInputs, Step, StepUpdate, CALC_X_WITH_FB, CALC_X, TEMP,
      nanArith, unitNet, vadd, cwiseProduct, unaryExpr, matVec, dot, h10]
  · simp [Train, TrainLoop, SetInputs, Step, StepUpdate, CALC_X_WITH_FB, CALC_X, TEMP, nanArith,
      unitNet, vadd, cwiseProduct, unaryExpr, matVec, dot, h10]
  · simp [Train, TrainLoop, SetInputs, Step, StepUpdate, CALC_X_WITH_FB, CALC_X, TEMP, nanArith,
      unitNet, vadd, cwiseProduct, unaryExpr, matVec, dot, readout, matMul, ofColumns,
      transpose, column, oneByOneLinAlg, List.range_succ, h10]
  · simp [matOfFn, List.range_succ]

/-- C20, as the code has it: for every valid parameter set (either value of linearOutput
and hasOutputFeedback), every input vector of length inputCount and every step size
`> 0`, on a freshly constructed, untrained network, and provided every component of the
reservoir state computed by the Step is finite, the sequence SetInputs, Step,
CaptureOutput into a buffer of length outputCount raises no error and yields exactly 0 in
every channel. -/
theorem fresh_network_output_zero (A : Arith F) (hA : A.Ordered) (hZ : A.ZeroLaws)
    (L : LinAlg F) (rnd : RandomDraws F) (params : NetworkParamsNSLI F)
    (input output : Vec F) (s : F)
    (hvalid : paramsRejected A params = false)
    (hinput : input.length = params.inputCount) (hs : A.lt A.zero s = true)
    (houtput : output.length = params.outputCount)
    (hfin : ∀ net, NetworkNSLI.create A L rnd params = .ok net →
      ∀ x ∈ (StepUpdate A (SetInputs A net input).net).mX, A.isfinite x = true) :
    ∃ net, NetworkNSLI.create A L rnd params = .ok net ∧
      (SetInputs A net input).err = none ∧
      (Step A (SetInputs A net input).net s).err = none ∧
      (CaptureOutput A (Step A (SetInputs A net input).net s).net output).err = none ∧
      (CaptureOutput A (Step A (SetInputs A net input).net s).net output).buffer =
        List.replicate params.outputCount A.zero := by
  obtain ⟨net, hc, hp, hi, -, -, -, -, -, -, hos, hob, hwo⟩ :=
    create_of_valid A L rnd params hvalid
  have hX := hfin net hc
  have hg := hA.not_le_of_lt _ _ hs
  have hset := SetInputs_ok A net input (by rw [hinput, hi]; simp [vecOfFn])
  have herr1 : (SetInputs A net input).err = none := by rw [hset]
  have hp1 : (SetInputs A net input).net.mParams = params := by rw [hset]; exact hp
  have hw1 : (SetInputs A net input).net.mWOut =
      matOfFn params.outputCount params.neuronCount (fun _ _ => A.zero) := by
    rw [hset]; exact hwo
  have hs1 : (SetInputs A net input).net.mOutScale =
      vecOfFn params.outputCount (fun _ => A.one) := by rw [hset]; exact hos
  have hb1 : (SetInputs A net input).net.mOutBias =
      vecOfFn params.outputCount (fun _ => A.zero) := by rw [hset]; exact hob
  refine ⟨net, hc, herr1, ?_⟩
  generalize (SetInputs A net input).net = n1 at hX hp1 hw1 hs1 hb1 ⊢
  obtain ⟨f1, f2, f3⟩ := StepUpdate_out_frame A n1
  have hmv : matVec A n1.mWOut (StepUpdate A n1).mX =
      List.replicate params.outputCount A.zero := by
    rw [hw1]
    simp only [matVec, matOfFn, List.map_map]
    apply map_range_const
    intro i
    exact dot_zeros A hZ _ _ (by simp) hX
  have hout : (StepUpdate A n1).mOut = List.replicate params.outputCount A.zero := by
    rw [f1, hmv]
    split_ifs
    · rfl
    · simp [unaryExpr, hZ.tanh_zero]
  have hstep : Step A n1 s = ⟨none, StepUpdate A n1⟩ := by
    unfold Step
    simp only [hg, Bool.false_eq_true, if_false, hout]
    rw [if_neg]
    simp [hZ.isfinite_zero]
  have hpar : (StepUpdate A n1).mParams = params := by
    rw [(StepUpdate_frame A n1).1]
    exact hp1
  have hscale : (StepUpdate A n1).mOutScale = List.replicate params.outputCount A.one := by
    rw [f2, hs1]
    exact map_range_const _ _ _ (fun _ => rfl)
  have hbias : (StepUpdate A n1).mOutBias = List.replicate params.outputCount A.zero := by
    rw [f3, hb1]
    exact map_range_const _ _ _ (fun _ => rfl)
  refine ⟨?_, ?_, ?_⟩
  · rw [hstep]
  · rw [hstep]
    unfold CaptureOutput
    simp [hpar, houtput]
  · rw [hstep]
    unfold CaptureOutput
    simp only [hpar, houtput, ne_eq, not_true_eq_false, if_false, hout, hscale, hbias]
    apply map_range_const
    intro i
    have h0 : (List.replicate params.outputCount A.zero).getD i A.zero = A.zero :=
      getD_zero A _ i (fun x hx => (List.mem_replicate.mp hx).2)
    have h1 : A.mul A.zero ((List.replicate params.outputCount A.one).getD i A.zero) =
        A.zero := by
      apply hZ.zero_mul
      by_cases hi : i < (List.replicate params.outputCount A.one).length
      · rw [(List.mem_replicate.mp (getD_mem _ i A.zero hi)).2]
        exact hZ.isfinite_one
      · rw [List.getD_eq_default _ _ (Nat.le_of_not_lt hi)]
        exact hZ.isfinite_zero
    rw [h0, h1, hZ.add_zero_zero]

/-- C20, the end-to-end scenario of the specification in exact rational arithmetic:
inputCount 2, neuronCount 50, outputCount 1, inputs [1, 1/2], Step(1/10); CaptureOutput
returns [0]. -/
theorem fresh_network_output_zero_witness :
    paramsRejected ratArith scenarioParams = false ∧
    ∃ net, NetworkNSLI.create ratArith (cyclicLinAlg ratArith) scenarioDraws scenarioParams =
        .ok net ∧
      (SetInputs ratArith net [1, 1 / 2]).err = none ∧
      (Step ratArith (SetInputs ratArith net [1, 1 / 2]).net (1 / 10)).err = none ∧
      (CaptureOutput ratArith
        (Step ratArith (SetInputs ratArith net [1, 1 / 2]).net (1 / 10)).net [0]).err = none ∧
      (CaptureOutput ratArith
        (Step ratArith (SetInputs ratArith net [1, 1 / 2]).net (1 / 10)).net [0]).buffer =
        List.replicate scenarioParams.outputCount ratArith.zero :=
  ⟨by simp [paramsRejected, ratArith, fieldArith, scenarioParams]; norm_num,
    fresh_network_output_zero ratArith ratArith_ordered ratArith_zeroLaws
      (cyclicLinAlg ratArith) scenarioDraws scenarioParams [1, 1 / 2] [0] (1 / 10)
      (by simp [paramsRejected, ratArith, fieldArith, scenarioParams]; norm_num) rfl
      (by simp [ratArith, fieldArith]) rfl (fun _ _ _ _ => rfl)⟩

/-- C20 fails as stated: in the arithmetic of the reals extended with a NaN, the valid
one-neuron parameter set with connectivity 1/10 and a mask draw of 1/2 gives a zero raw
weight matrix, whose largest eigenvalue magnitude is 0; the constructor sets
W = 0 / 0 * 0.9 = NaN; with the finite input [1], SetInputs succeeds and Step(1/10)
computes a NaN state and the output 0 * NaN = NaN, and fails with OutputIsNotFinite. -/
theorem fresh_network_output_zero_counterexample :
    paramsRejected (nanArith ℝ Real.tanh (fun x => Real.log ((1 + x) / (1 - x)) / 2))
      (maskedParams ℝ) = false ∧
    ∃ net, NetworkNSLI.create (nanArith ℝ Real.tanh (fun x => Real.log ((1 + x) / (1 - x)) / 2))
        (oneByOneLinAlg (nanArith ℝ Real.tanh (fun x => Real.log ((1 + x) / (1 - x)) / 2)))
        (maskedDraws ℝ) (maskedParams ℝ) = .ok net ∧
      net.mW = [[none]] ∧
      (SetInputs (nanArith ℝ Real.tanh (fun x => Real.log ((1 + x) / (1 - x)) / 2)) net
        [some 1]).err = none ∧
      (Step (nanArith ℝ Real.tanh (fun x => Real.log ((1 + x) / (1 - x)) / 2))
        (SetInputs (nanArith ℝ Real.tanh (fun x => Real.log ((1 + x) / (1 - x)) / 2)) net
          [some 1]).net (some (1 / 10))).err = some .outputIsNotFinite := by
  have hvalid : paramsRejected
      (nanArith ℝ Real.tanh (fun x => Real.log ((1 + x) / (1 - x)) / 2))
      (maskedParams ℝ) = false := by
    simp [paramsRejected, nanArith, maskedParams]
    norm_num
  refine ⟨hvalid, ?_⟩
  have h10 : ¬ ((10 : ℝ) ≤ 0) := by norm_num
  have hmask : ¬ (|(2⁻¹ : ℝ)| ≤ 10⁻¹) := by
    rw [abs_of_pos (by norm_num)]
    norm_num
  unfold NetworkNSLI.create
  rw [hvalid]
  refine ⟨_, rfl, ?_, ?_, ?_⟩
  · simp [reservoirMatrix, randomWeights, matOfFn, oneByOneLinAlg, nanArith, maskedParams,
      maskedDraws, List.range_succ, hmask]
  · simp [SetInputs, vecOfFn, maskedParams]
  · simp [SetInputs, Step, StepUpdate, CALC_X_WITH_FB, CALC_X, TEMP, vadd, cwiseProduct,
      unaryExpr, matVec, dot, vecOfFn, matOfFn, leakingRates, reservoirMatrix, randomWeights,
      oneByOneLinAlg, nanArith, maskedParams, maskedDraws, List.range_succ, hmask, h10]

/-- C22 (amended): in arithmetic with a NaN whose operations round their exact result
with a monotone, odd rounding that leaves 1 unchanged (every IEEE rounding to nearest; the
identity gives exact arithmetic), and with a `tanh` whose values lie in [-1, 1], take any
network and any bounds B that are closed under the update: B[i] ≥ 1 and, where the cached
complement c[i] = mOneMinusLeakingRate[i] is a number, c[i] ≥ 0 and c[i]·B[i] + 1,
evaluated with rounding, is at most B[i].  If every state component that is a number
satisfies |X[i]| ≤ B[i], then every state component that is a number satisfies the same
bound after the update of Step and after Step with any step size, for every stored input,
every weight matrix and either setting of hasOutputFeedback and linearOutput, and after
any sequence of SetInputs, Step, Train and TrainOnline calls, whether they return or
throw.  The state of a network built by the constructor from valid parameters and state
draws that are NaN or in [-1, 1] satisfies every such bound.  In exact arithmetic, with
leaking rates in (0, 1] and the complement 1 - leakingRate, B[i] = 1 / leakingRate[i] is
such a bound. -/
theorem state_stays_bounded (K : Type) [LinearOrderedField K] (rnd tanh atanh : K → K)
    (hlaws : RoundingLaws rnd) (htanh : ∀ x, |tanh x| ≤ 1) (L : LinAlg (Option K))
    (net : NetworkNSLI (Option K)) (B : List K) (hadm : Admissible rnd B net)
    (hb : StateBoundedBy B net) :
    StateBoundedBy B (StepUpdate (floatArith K rnd tanh atanh) net) ∧
    (∀ step, StateBoundedBy B (Step (floatArith K rnd tanh atanh) net step).net) ∧
    (∀ calls, StateBoundedBy B (runCalls (floatArith K rnd tanh atanh) L net calls)) ∧
    (∀ (draws : RandomDraws (Option K)) (params : NetworkParamsNSLI (Option K)),
      paramsRejected (floatArith K rnd tanh atanh) params = false →
      (∀ (i : Nat) (a : K), draws.x i = some a → |a| ≤ 1) →
      ∃ net0, NetworkNSLI.create (floatArith K rnd tanh atanh) L draws params = .ok net0 ∧
        ∀ B0 : List K, Admissible rnd B0 net0 → StateBoundedBy B0 net0) ∧
    (∀ net1 : NetworkNSLI (Option K),
      net1.mOneMinusLeakingRate = net1.mLeakingRate.map
        (fun r => (floatArith K id tanh atanh).sub (floatArith K id tanh atanh).one r) →
      RatesInUnit net1 →
      Admissible id (net1.mLeakingRate.map (fun r => 1 / r.getD 1)) net1) := by
  refine ⟨(StepUpdate_boundedBy rnd tanh atanh hlaws htanh net B ⟨hadm, hb⟩).2,
    fun step => (Step_boundedBy rnd tanh atanh hlaws htanh net B step ⟨hadm, hb⟩).2,
    fun calls => (runCalls_boundedBy rnd tanh atanh hlaws htanh B L calls net ⟨hadm, hb⟩).2,
    ?_, fun net1 hcache hrates => inverse_rate_admissible tanh atanh net1 hcache hrates⟩
  intro draws params hvalid hx
  obtain ⟨net0, hc, h0⟩ := create_boundedBy rnd tanh atanh L draws params hvalid hx
  refine ⟨net0, hc, fun B0 hB0 => h0 B0 ?_⟩
  intro b hbmem
  obtain ⟨i, hi⟩ := List.mem_iff_getElem?.mp hbmem
  exact (hB0 i b hi).1

/-- C22 (amended) applies to binary32 rounding, the real `tanh` and the one-neuron sample
network with leaking rate 1/2, complement 1/2 and state 0: the bound 2 is closed under the
update, since 1/2 · 2 + 1 = 2, and holds after the update of Step and after every
sequence of calls. -/
theorem state_stays_bounded_witness :
    RoundingLaws (roundNearestEven 24 : ℝ → ℝ) ∧ (∀ x, |Real.tanh x| ≤ 1) ∧
    Admissible (roundNearestEven 24) [(2 : ℝ)]
      (unitNet (floatArith ℝ (roundNearestEven 24) Real.tanh
        (fun x => Real.log ((1 + x) / (1 - x)) / 2)) (some (1 / 2)) false true) ∧
    StateBoundedBy [(2 : ℝ)]
      (StepUpdate (floatArith ℝ (roundNearestEven 24) Real.tanh
          (fun x => Real.log ((1 + x) / (1 - x)) / 2))
        (unitNet (floatArith ℝ (roundNearestEven 24) Real.tanh
          (fun x => Real.log ((1 + x) / (1 - x)) / 2)) (some (1 / 2)) false true)) ∧
    (∀ calls, StateBoundedBy [(2 : ℝ)] (runCalls
      (floatArith ℝ (roundNearestEven 24) Real.tanh
        (fun x => Real.log ((1 + x) / (1 - x)) / 2))
      (oneByOneLinAlg (floatArith ℝ (roundNearestEven 24) Real.tanh
        (fun x => Real.log ((1 + x) / (1 - x)) / 2)))
      (unitNet (floatArith ℝ (roundNearestEven 24) Real.tanh
        (fun x => Real.log ((1 + x) / (1 - x)) / 2)) (some (1 / 2)) false true) calls)) := by
  have f1 : roundNearestEven 24 (1 / 2 : ℝ) = 1 / 2 := by
    have := roundNearestEven_fixed (K := ℝ) 24 1 (-1) (by norm_num)
    norm_num at this
    exact this
  have f2 : roundNearestEven 24 (2 : ℝ) = 2 := by
    have := roundNearestEven_fixed (K := ℝ) 24 1 1 (by norm_num)
    norm_num at this
    exact this
  have f3 : roundNearestEven 24 (1 : ℝ) = 1 := roundNearestEven_one 24 (by norm_num)
  have hadm : Admissible (roundNearestEven 24) [(2 : ℝ)]
      (unitNet (floatArith ℝ (roundNearestEven 24) Real.tanh
        (fun x => Real.log ((1 + x) / (1 - x)) / 2)) (some (1 / 2)) false true) := by
    intro i b hB
    cases i with
    | zero =>
      simp only [List.getElem?_cons_zero, Option.some.injEq] at hB
      subst hB
      refine ⟨by norm_num, ?_⟩
      intro c hc
      simp only [unitNet, floatArith, List.getElem?_cons_zero, Option.some.injEq] at hc
      subst hc
      norm_num [f1, f2, f3]
    | succ j => simp at hB
  have hb : StateBoundedBy [(2 : ℝ)]
      (unitNet (floatArith ℝ (roundNearestEven 24) Real.tanh
        (fun x => Real.log ((1 + x) / (1 - x)) / 2)) (some (1 / 2)) false true) := by
    intro i a b ha hB
    cases i with
    | zero =>
      simp only [unitNet, floatArith, List.getElem?_cons_zero, Option.some.injEq] at ha hB
      subst ha hB
      norm_num
    | succ j => simp [unitNet] at ha
  have h := state_stays_bounded ℝ (roundNearestEven 24) Real.tanh
    (fun x => Real.log ((1 + x) / (1 - x)) / 2) (roundNearestEven_laws 24 (by norm_num))
    abs_tanh_le_one
    (oneByOneLinAlg (floatArith ℝ (roundNearestEven 24) Real.tanh
      (fun x => Real.log ((1 + x) / (1 - x)) / 2)))
    (unitNet (floatArith ℝ (roundNearestEven 24) Real.tanh
      (fun x => Real.log ((1 + x) / (1 - x)) / 2)) (some (1 / 2)) false true) [2] hadm hb
  exact ⟨roundNearestEven_laws 24 (by norm_num), abs_tanh_le_one, hadm, h.1, h.2.2.1⟩

/-- C22 fails as stated: in the arithmetic of the reals extended with a NaN, the valid
one-neuron parameter set with leaking rate 3/10, connectivity 1/10 and a mask draw of 1/2
gives the reservoir weight W = 0 / 0 * 0.9 = NaN; the leaking rate 3/10 lies in (0, 1] and
the initial state 1/2 satisfies |1/2| ≤ 1 / (3/10); with the finite input [1], SetInputs
succeeds and Step(1/10) leaves the state NaN, which does not satisfy the bound. -/
theorem state_stays_bounded_counterexample :
    paramsRejected (nanArith ℝ Real.tanh (fun x => Real.log ((1 + x) / (1 - x)) / 2))
      (maskedParams ℝ) = false ∧
    ∃ net, NetworkNSLI.create (nanArith ℝ Real.tanh (fun x => Real.log ((1 + x) / (1 - x)) / 2))
        (oneByOneLinAlg (nanArith ℝ Real.tanh (fun x => Real.log ((1 + x) / (1 - x)) / 2)))
        (maskedDraws ℝ) (maskedParams ℝ) = .ok net ∧
      net.mLeakingRate = [some (3 / 10)] ∧ net.mX = [some (1 / 2)] ∧
      boundHolds (nanArith ℝ Real.tanh (fun x => Real.log ((1 + x) / (1 - x)) / 2)) net = true ∧
      (SetInputs (nanArith ℝ Real.tanh (fun x => Real.log ((1 + x) / (1 - x)) / 2)) net
        [some 1]).err = none ∧
      (Step (nanArith ℝ Real.tanh (fun x => Real.log ((1 + x) / (1 - x)) / 2))
        (SetInputs (nanArith ℝ Real.tanh (fun x => Real.log ((1 + x) / (1 - x)) / 2)) net
          [some 1]).net (some (1 / 10))).net.mX = [none] ∧
      boundHolds (nanArith ℝ Real.tanh (fun x => Real.log ((1 + x) / (1 - x)) / 2))
        (Step (nanArith ℝ Real.tanh (fun x => Real.log ((1 + x) / (1 - x)) / 2))
          (SetInputs (nanArith ℝ Real.tanh (fun x => Real.log ((1 + x) / (1 - x)) / 2)) net
            [some 1]).net (some (1 / 10))).net = false := by
  have hvalid : paramsRejected
      (nanArith ℝ Real.tanh (fun x => Real.log ((1 + x) / (1 - x)) / 2))
      (maskedParams ℝ) = false := by
    simp [paramsRejected, nanArith, maskedParams]
    norm_num
  refine ⟨hvalid, ?_⟩
  have h10 : ¬ ((10 : ℝ) ≤ 0) := by norm_num
  have hmask : ¬ (|(2⁻¹ : ℝ)| ≤ 10⁻¹) := by
    rw [abs_of_pos (by norm_num)]
    norm_num
  have hlr : leakingRates (nanArith ℝ Real.tanh (fun x => Real.log ((1 + x) / (1 - x)) / 2))
      (maskedDraws ℝ) (maskedParams ℝ) = [some (3 / 10)] := by
    simp [leakingRates, vecOfFn, nanArith, maskedParams, maskedDraws, List.range_succ]
  have hbound : |(2⁻¹ : ℝ)| ≤ 10 / 3 := by
    rw [abs_of_pos (by norm_num)]
    norm_num
  have h3 : ¬ ((3 / 10 : ℝ) = 0) := by norm_num
  unfold NetworkNSLI.create
  rw [hvalid]
  refine ⟨_, rfl, hlr, ?_, ?_, ?_, ?_, ?_⟩
  · simp [vecOfFn, maskedParams, maskedDraws, List.range_succ]
  · simp only [boundHolds, hlr]
    simp [vecOfFn, maskedParams, maskedDraws, List.range_succ, nanArith, h3, hbound]
  · simp [SetInputs, vecOfFn, maskedParams]
  · simp [SetInputs, Step, StepUpdate, CALC_X_WITH_FB, CALC_X, TEMP, vadd, cwiseProduct,
      unaryExpr, matVec, dot, vecOfFn, matOfFn, leakingRates, reservoirMatrix, randomWeights,
      oneByOneLinAlg, nanArith, maskedParams, maskedDraws, List.range_succ, hmask, h10]
  · simp [boundHolds, SetInputs, Step, StepUpdate, CALC_X_WITH_FB, CALC_X, TEMP, vadd,
      cwiseProduct, unaryExpr, matVec, dot, vecOfFn, matOfFn, leakingRates, reservoirMatrix,
      randomWeights, oneByOneLinAlg, nanArith, maskedParams, maskedDraws, List.range_succ,
      hmask, h10]

end Claims

end ESN
